import Mathlib

set_option linter.unusedVariables false

/-!
# Verification of the previwer consensus-and-reward settlement engine

A shallow embedding of the backend's settlement core:

* `SolanaService` (src/backend/src/services/solana.js): `sendReward`,
  `getServicePrice`, `calculateWorkerReward`;
* `ConsensusService` (src/backend/src/services/websocket.js):
  `checkTaskCompletion`, `calculateConsensus`, `calculateWorkerRewards`,
  `processTaskCompletion`;
* the worker router (src/backend/src/routers/worker.js): the `POST /payout`
  withdrawal flow and the `POST /submission` transaction;
* the ledger schema (src/backend/prisma/migrations/.../migration.sql).

The Prisma database is modelled as an explicit `Db` value threaded through
the handlers; Prisma's interactive `$transaction` (all writes discarded when
the callback throws) is modelled by returning the caller's original `Db`
whenever a step of the transaction fails.  JavaScript numbers standing for
lamport amounts are modelled as `Int`/`Nat`; the floating-point percentage
and threshold arithmetic is modelled with exact rationals `ℚ`.
-/

set_option autoImplicit false

namespace Previwer

/-! ## Data model (prisma migration 20250804084024_update_schema) -/

/-- `ServiceType` enum from the migration. -/
inductive ServiceType
  | MARKETING_IMAGES
  | YOUTUBE_THUMBNAILS
  | VIDEOS
deriving DecidableEq, Repr

/-- `TxnStatus` enum used by `WorkerWithdrawal.status`. -/
inductive TxnStatus
  | Processing
  | Success
  | Failure
deriving DecidableEq, Repr

/-- One `Option` row (a candidate piece of content of a task).  Only the
primary key matters to the consensus engine. -/
structure TaskOption where
  id : Nat
deriving DecidableEq, Repr

/-- One `Submission` row: a worker's vote for one option of one task.
`amount` is the provisional per-submission credit recorded at creation. -/
structure Submission where
  option_id : Nat
  worker_id : Nat
  amount : Nat
deriving DecidableEq, Repr

/-- One `Task` row together with its included `options` and `submissions`
relations (the shape `checkTaskCompletion` reads).  `completedAt` is
modelled as a flag recording whether the timestamp has been set. -/
structure Task where
  id : Nat
  serviceType : ServiceType
  reviewCount : Nat
  amount : Nat
  done : Bool
  completedAt : Bool
  options : List TaskOption
  submissions : List Submission
deriving DecidableEq, Repr

/-- One `Worker` row (the balance fields mutated by the engine). -/
structure Worker where
  id : Nat
  address : String
  pending_amount : Int
  locked_amount : Int
  total_earned : Int
  tasks_completed : Nat
deriving DecidableEq, Repr

/-- One `OptionResult` row. -/
structure OptionResultRow where
  option_id : Nat
  vote_count : Nat
  rank : Nat
  percentage : ℚ
deriving DecidableEq, Repr

/-- One `TaskResult` row together with its `OptionResult` children.  The
migration puts a unique index `TaskResult_task_id_key` on `task_id`. -/
structure TaskResultRow where
  task_id : Nat
  results : List OptionResultRow
deriving DecidableEq, Repr

/-- One `WorkerWithdrawal` row.  `processedAt` is modelled as a flag. -/
structure WithdrawalRow where
  id : Nat
  workerId : Nat
  amount : Int
  signature : String
  status : TxnStatus
  processedAt : Bool
deriving DecidableEq, Repr

/-- The ledger store: the tables the settlement engine touches. -/
structure Db where
  tasks : List Task
  workers : List Worker
  taskResults : List TaskResultRow
  withdrawals : List WithdrawalRow
deriving DecidableEq, Repr

/-- The error kinds the engine raises (spec taxonomy §7): `notFound` carries
the thrown message, `uniqueViolation` carries the violated constraint's name
(Prisma error P2002), `payoutFailed` stands for a Payout Dispatcher error. -/
inductive SvcError
  | notFound (message : String)
  | notReady
  | uniqueViolation (constraint : String)
  | payoutFailed
deriving DecidableEq, Repr

/-- The environment configuration read by `SolanaService` (the
`process.env` pricing and reward variables, assumed to parse). -/
structure EnvConfig where
  marketingImages200Price : Nat
  marketingImages500Price : Nat
  youtubeThumbnails200Price : Nat
  youtubeThumbnails500Price : Nat
  videos100Price : Nat
  videos300Price : Nat
  videoMajorityReward : Nat
  imageThumbnailMajorityReward : Nat
  secondPlaceMultiplier : ℚ
  thirdPlaceMultiplier : ℚ
deriving DecidableEq, Repr

/-! ## Ledger store primitives -/

/-- `prismaClient.task.findUnique({ where: { id: taskId } })`. -/
def findTask (db : Db) (taskId : Nat) : Option Task :=
  db.tasks.find? (fun t => t.id == taskId)

/-- `tx.task.update({ where: { id: taskId }, data: ... })` applied as a pure
record update on the matching row. -/
def updateTask (db : Db) (taskId : Nat) (f : Task → Task) : Db :=
  { db with tasks := db.tasks.map (fun t => if t.id == taskId then f t else t) }

/-- `prismaClient.worker.findUnique({ where: { id: workerId } })`. -/
def findWorker (db : Db) (workerId : Nat) : Option Worker :=
  db.workers.find? (fun w => w.id == workerId)

/-- `tx.worker.update({ where: { id: workerId }, data: ... })`. -/
def updateWorker (db : Db) (workerId : Nat) (f : Worker → Worker) : Db :=
  { db with workers := db.workers.map (fun w => if w.id == workerId then f w else w) }

/-- Whether a `TaskResult` row for this task exists, i.e. whether
`tx.taskResult.create` would violate the unique index
`TaskResult_task_id_key` (migration line 133). -/
def hasTaskResult (db : Db) (taskId : Nat) : Bool :=
  db.taskResults.any (fun tr => tr.task_id == taskId)

/-- The `SERIAL` primary key a freshly created `WorkerWithdrawal` row gets. -/
def nextWithdrawalId (db : Db) : Nat :=
  db.withdrawals.length + 1

/-- `prismaClient.workerWithdrawal.update({ where: { id }, data: ... })`. -/
def updateWithdrawal (db : Db) (wid : Nat) (f : WithdrawalRow → WithdrawalRow) : Db :=
  { db with withdrawals := db.withdrawals.map (fun w => if w.id == wid then f w else w) }

/-! ## SolanaService (src/backend/src/services/solana.js) -/

/-- The bs58 alphabet. -/
def base58Chars : List Char :=
  "123456789ABCDEFGHJKLMNPQRSTUVWXYZabcdefghijkmnopqrstuvwxyz".toList

/-- Base-58 digits of a natural number, most significant first. -/
def base58Digits (n : Nat) : List Char :=
  if h : n = 0 then []
  else base58Digits (n / 58) ++ [base58Chars.getD (n % 58) '1']
decreasing_by exact Nat.div_lt_self (Nat.pos_of_ne_zero h) (by decide)

/-- A byte list read as a big-endian number (how bs58 interprets a buffer). -/
def bytesToNat (bytes : List Nat) : Nat :=
  bytes.foldl (fun acc b => acc * 256 + b % 256) 0

/-- Count of leading zero bytes, each of which bs58 encodes as `'1'`. -/
def countLeadingZeroBytes : List Nat → Nat
  | [] => 0
  | b :: rest => if b % 256 = 0 then countLeadingZeroBytes rest + 1 else 0

/-- `bs58.encode` on a byte buffer. -/
def base58Encode (bytes : List Nat) : String :=
  String.mk (List.replicate (countLeadingZeroBytes bytes) '1'
    ++ base58Digits (bytesToNat bytes))

/-- `SolanaService.sendReward(workerAddress, amount)` (solana.js:96-110):
logs, builds a mock signature by bs58-encoding 64 random bytes, and returns
it.  The `entropy` argument stands for the `Math.floor(Math.random()*256)`
byte draws; every operation in the body is total, so the surrounding
`try/catch` never rethrows and the call always succeeds. -/
def sendReward (entropy : List Nat) (workerAddress : String) (amount : Int) :
    Except SvcError String :=
  .ok (base58Encode entropy)

/-- `SolanaService.getServicePrice(serviceType, reviewCount)`
(solana.js:155-172): a fixed table `priceMap[serviceType]?.[reviewCount]`
with `|| 0` turning any missing combination into `0`. -/
def getServicePrice (cfg : EnvConfig) (serviceType : ServiceType) (reviewCount : Nat) : Nat :=
  match serviceType with
  | .MARKETING_IMAGES =>
    if reviewCount = 200 then cfg.marketingImages200Price
    else if reviewCount = 500 then cfg.marketingImages500Price
    else 0
  | .YOUTUBE_THUMBNAILS =>
    if reviewCount = 200 then cfg.youtubeThumbnails200Price
    else if reviewCount = 500 then cfg.youtubeThumbnails500Price
    else 0
  | .VIDEOS =>
    if reviewCount = 100 then cfg.videos100Price
    else if reviewCount = 300 then cfg.videos300Price
    else 0

/-- The (category, tier) pairs present in `priceMap`. -/
def inPriceTable (serviceType : ServiceType) (reviewCount : Nat) : Bool :=
  match serviceType with
  | .MARKETING_IMAGES => reviewCount == 200 || reviewCount == 500
  | .YOUTUBE_THUMBNAILS => reviewCount == 200 || reviewCount == 500
  | .VIDEOS => reviewCount == 100 || reviewCount == 300

/-- The task-creation boundary check from the user router's `POST /upload`
handler: `const expectedAmount = getServicePrice(...); if (!expectedAmount)`
rejects the request with an invalid-combination error before any task is
created, so a zero price is never usable. -/
def validateUploadPricing (cfg : EnvConfig) (serviceType : ServiceType) (reviewCount : Nat) :
    Except String Nat :=
  let expectedAmount := getServicePrice cfg serviceType reviewCount
  if expectedAmount = 0 then
    .error "Invalid service type and review count combination"
  else
    .ok expectedAmount

/-- `SolanaService.calculateWorkerReward(serviceType, rank)`
(solana.js:180-199): category base reward, scaled by the configured
second/third-place multiplier with `Math.floor`, `0` for any other rank. -/
def calculateWorkerReward (cfg : EnvConfig) (serviceType : ServiceType) (rank : Int) : Int :=
  let baseReward : Nat :=
    if serviceType = .VIDEOS then cfg.videoMajorityReward
    else cfg.imageThumbnailMajorityReward
  if rank = 1 then (baseReward : Int)
  else if rank = 2 then ⌊(baseReward : ℚ) * cfg.secondPlaceMultiplier⌋
  else if rank = 3 then ⌊(baseReward : ℚ) * cfg.thirdPlaceMultiplier⌋
  else 0

/-! ## ConsensusService: vote tally (websocket.js:435-487)

`calculateConsensus` accumulates votes in a plain JavaScript object keyed by
the numeric option id (`voteCounts[option.id] = ...`).  Such an object is
modelled as an association list written in insertion order; JavaScript
enumerates integer-like own property keys in **ascending numeric order**
(OrdinaryOwnPropertyKeys), so `Object.values(voteCounts)` is modelled by
sorting the entries by key before projecting the values. -/

/-- A vote accumulator: `{ optionId, count, voters }` (the `option` field of
the JS object is dropped; the engine reads only these three). -/
structure VoteAccum where
  optionId : Nat
  count : Nat
  voters : List Nat
deriving DecidableEq, Repr

/-- A JavaScript object with integer keys, as an association list in
insertion order. -/
abbrev VoteMap := List (Nat × VoteAccum)

/-- Property read `m[k]`. -/
def objGet (k : Nat) : VoteMap → Option VoteAccum
  | [] => none
  | (k0, v0) :: rest => if k0 = k then some v0 else objGet k rest

/-- Property write `m[k] = v` (replaces an existing key, else appends). -/
def objSet (k : Nat) (v : VoteAccum) : VoteMap → VoteMap
  | [] => [(k, v)]
  | (k0, v0) :: rest => if k0 = k then (k, v) :: rest else (k0, v0) :: objSet k v rest

/-- The object's own keys in insertion order. -/
def objKeys (m : VoteMap) : List Nat :=
  m.map Prod.fst

/-- Insert an entry into a key-sorted association list (ascending key). -/
def insertByKey (p : Nat × VoteAccum) : VoteMap → VoteMap
  | [] => [p]
  | q :: qs => if p.1 ≤ q.1 then p :: q :: qs else q :: insertByKey p qs

/-- Sort an association list by key, ascending. -/
def sortByKey : VoteMap → VoteMap
  | [] => []
  | p :: ps => insertByKey p (sortByKey ps)

/-- `Object.values(m)`: integer-like keys are enumerated in ascending
numeric order regardless of insertion order. -/
def objValues (m : VoteMap) : List VoteAccum :=
  (sortByKey m).map Prod.snd

/-- `task.options.forEach(option => voteCounts[option.id] = { count: 0, ... })`. -/
def initVoteCounts (options : List TaskOption) : VoteMap :=
  options.foldl (fun m o => objSet o.id ⟨o.id, 0, []⟩ m) []

/-- `task.submissions.forEach(...)`: increment the chosen option's counter
and push the voter; submissions pointing at unknown options are skipped. -/
def tallyVotes (submissions : List Submission) (m : VoteMap) : VoteMap :=
  submissions.foldl (fun m s =>
    match objGet s.option_id m with
    | some a => objSet s.option_id ⟨a.optionId, a.count + 1, a.voters ++ [s.worker_id]⟩ m
    | none => m) m

/-- Stable insertion for the comparator `(a, b) => b.count - a.count`:
an element is placed before the first element whose count is ≤ its own,
which reproduces the stable descending sort of `Array.prototype.sort`. -/
def insertByCount (x : VoteAccum) : List VoteAccum → List VoteAccum
  | [] => [x]
  | y :: ys => if y.count ≤ x.count then x :: y :: ys else y :: insertByCount x ys

/-- Stable sort by vote count, descending. -/
def sortByCountDesc : List VoteAccum → List VoteAccum
  | [] => []
  | x :: xs => insertByCount x (sortByCountDesc xs)

/-- One entry of `sortedResults`: accumulator extended by
`rank = index + 1` and `percentage = count / totalSubmissions * 100`. -/
structure RankedResult where
  optionId : Nat
  count : Nat
  voters : List Nat
  rank : Nat
  percentage : ℚ
deriving DecidableEq, Repr

/-- The `.map((result, index) => ...)` step, with `start` the rank of the
first element (1 at the top-level call). -/
def assignRanks (totalSubmissions : Nat) (start : Nat) :
    List VoteAccum → List RankedResult
  | [] => []
  | a :: rest =>
    ⟨a.optionId, a.count, a.voters, start,
      (a.count : ℚ) / (totalSubmissions : ℚ) * 100⟩
      :: assignRanks totalSubmissions (start + 1) rest

/-! ## ConsensusService: completion check and consensus -/

/-- Return shape of `checkTaskCompletion` (websocket.js:416-423). -/
structure CompletionStatus where
  taskId : Nat
  requiredSubmissions : Nat
  currentSubmissions : Nat
  completionPercentage : ℚ
  isReadyForConsensus : Bool
  task : Task
deriving DecidableEq, Repr

/-- `this.MINIMUM_SUBMISSIONS_THRESHOLD = 0.8`. -/
def MINIMUM_SUBMISSIONS_THRESHOLD : ℚ := 8 / 10

/-- `ConsensusService.checkTaskCompletion(taskId)` (websocket.js:398-428).
Throws `Task not found` when the task does not exist; otherwise reports the
submission counts and the readiness flag
`currentSubmissions / requiredSubmissions >= 0.8`. -/
def checkTaskCompletion (db : Db) (taskId : Nat) : Except SvcError CompletionStatus :=
  match findTask db taskId with
  | none => .error (.notFound "Task not found")
  | some task =>
    let requiredSubmissions := task.reviewCount
    let currentSubmissions := task.submissions.length
    let completionPercentage : ℚ :=
      (currentSubmissions : ℚ) / (requiredSubmissions : ℚ)
    .ok { taskId := taskId
          requiredSubmissions := requiredSubmissions
          currentSubmissions := currentSubmissions
          completionPercentage := completionPercentage
          isReadyForConsensus := decide (completionPercentage ≥ MINIMUM_SUBMISSIONS_THRESHOLD)
          task := task }

/-- One entry of `workerRewards` (websocket.js:508-514). -/
structure WorkerReward where
  workerId : Nat
  optionId : Nat
  rank : Nat
  amount : Int
  percentage : ℚ
deriving DecidableEq, Repr

/-- The loop of `calculateWorkerRewards` over `consensusResults.slice(0, 3)`
(websocket.js:500-516): for the entry at slice index `i` the rank is
`i + 1`, every voter of that entry receives the same
`calculateWorkerReward(serviceType, rank)` amount.  `rank` is the rank of
the head entry. -/
def rewardLoop (cfg : EnvConfig) (serviceType : ServiceType) (rank : Nat) :
    List RankedResult → List WorkerReward
  | [] => []
  | r :: rest =>
    r.voters.map (fun workerId =>
      ⟨workerId, r.optionId, rank, calculateWorkerReward cfg serviceType (rank : Int),
        r.percentage⟩)
      ++ rewardLoop cfg serviceType (rank + 1) rest

/-- `ConsensusService.calculateWorkerRewards(task, consensusResults)`
(websocket.js:495-523). -/
def calculateWorkerRewards (cfg : EnvConfig) (task : Task)
    (consensusResults : List RankedResult) : List WorkerReward :=
  rewardLoop cfg task.serviceType 1 (consensusResults.take 3)

/-- Return shape of `calculateConsensus` (websocket.js:476-482). -/
structure ConsensusResult where
  taskId : Nat
  totalSubmissions : Nat
  results : List RankedResult
  workerRewards : List WorkerReward
deriving DecidableEq, Repr

/-- `ConsensusService.calculateConsensus(taskId)` (websocket.js:435-487). -/
def calculateConsensus (cfg : EnvConfig) (db : Db) (taskId : Nat) :
    Except SvcError ConsensusResult :=
  match checkTaskCompletion db taskId with
  | .error e => .error e
  | .ok taskStatus =>
    if !taskStatus.isReadyForConsensus then
      .error .notReady
    else
      let task := taskStatus.task
      let voteCounts := initVoteCounts task.options
      let tallied := tallyVotes task.submissions voteCounts
      let sortedResults :=
        assignRanks task.submissions.length 1 (sortByCountDesc (objValues tallied))
      let workerRewards := calculateWorkerRewards cfg task sortedResults
      .ok ⟨taskId, task.submissions.length, sortedResults, workerRewards⟩

/-! ## ConsensusService: settlement (websocket.js:530-616) -/

/-- One entry of `rewardTransactions` (websocket.js:593-598). -/
structure RewardTransaction where
  workerId : Nat
  amount : Int
  signature : String
  rank : Nat
deriving DecidableEq, Repr

/-- Return shape of `processTaskCompletion`. -/
structure SettlementResult where
  taskId : Nat
  consensus : ConsensusResult
  rewardTransactions : List RewardTransaction
deriving DecidableEq, Repr

/-- The reward-distribution loop inside the settlement transaction
(websocket.js:570-599): per reward, increment the worker's
`pending_amount`/`total_earned`/`tasks_completed` (Prisma `update` throws a
record-not-found error if the worker is missing), then call
`solanaService.sendReward(worker.address, amount)` **inside the
transaction** and record the returned signature.  A `dispatch` failure
propagates out of the transaction callback. -/
def distributeRewards (dispatch : String → Int → Except SvcError String) :
    List WorkerReward → Db → List RewardTransaction →
    Except SvcError (Db × List RewardTransaction)
  | [], db, acc => .ok (db, acc)
  | reward :: rest, db, acc =>
    match findWorker db reward.workerId with
    | none => .error (.notFound "Worker not found")
    | some _ =>
      let db1 := updateWorker db reward.workerId (fun w =>
        { w with pending_amount := w.pending_amount + reward.amount
                 total_earned := w.total_earned + reward.amount
                 tasks_completed := w.tasks_completed + 1 })
      match findWorker db1 reward.workerId with
      | none => .error (.notFound "Worker not found")
      | some w =>
        match dispatch w.address reward.amount with
        | .error e => .error e
        | .ok signature =>
          distributeRewards dispatch rest db1
            (acc ++ [⟨reward.workerId, reward.amount, signature, reward.rank⟩])

/-- The `prismaClient.$transaction(async (tx) => ...)` callback of
`processTaskCompletion` (websocket.js:538-607): mark the task done, create
the `TaskResult` (unique on `task_id`), create the `OptionResult` rows, then
distribute rewards (dispatching the payout per worker inside the
transaction).  The uniqueness check reads `db.taskResults`, which the
preceding task update leaves untouched. -/
def runSettlementTx (dispatch : String → Int → Except SvcError String)
    (db : Db) (taskId : Nat) (consensus : ConsensusResult) :
    Except SvcError (Db × SettlementResult) :=
  match findTask db taskId with
  | none => .error (.notFound "Task not found")
  | some _ =>
    if hasTaskResult db taskId then
      .error (.uniqueViolation "TaskResult_task_id_key")
    else
      match distributeRewards dispatch consensus.workerRewards
          { updateTask db taskId (fun t => { t with done := true, completedAt := true }) with
            taskResults := db.taskResults
              ++ [⟨taskId, consensus.results.map (fun r =>
                    ⟨r.optionId, r.count, r.rank, r.percentage⟩)⟩] } [] with
      | .error e => .error e
      | .ok (db3, rewardTransactions) =>
        .ok (db3, ⟨taskId, consensus, rewardTransactions⟩)

/-- `ConsensusService.processTaskCompletion(taskId)` (websocket.js:530-616).
When the transaction callback throws, Prisma rolls back every write of the
transaction, so the original `db` is returned alongside the error. -/
def processTaskCompletion (cfg : EnvConfig)
    (dispatch : String → Int → Except SvcError String)
    (db : Db) (taskId : Nat) : Db × Except SvcError SettlementResult :=
  match calculateConsensus cfg db taskId with
  | .error e => (db, .error e)
  | .ok consensus =>
    match runSettlementTx dispatch db taskId consensus with
    | .error e => (db, .error e)
    | .ok (db2, result) => (db2, .ok result)

/-! ## Worker router: withdrawal flow (worker.js POST /payout, 394-531) -/

/-- The handler's observable responses. -/
inductive PayoutResponse
  | workerNotFound
  | noFunds
  | insufficientBalance
  | txFailed
  | payoutSuccess (withdrawalId : Nat) (amount : Int)
deriving DecidableEq, Repr

/-- `POST /payout` (worker.js:394-531).  `amount` is the validated optional
positive request amount; `amount || worker.pending_amount` defaults a
missing (or zero) amount to the whole pending balance.  The first
transaction moves pending → locked and creates a `Processing` withdrawal;
on dispatcher success the row is marked `Success` and the locked amount is
released; on dispatcher failure a compensating transaction marks the row
`Failure` and moves the funds back (worker.js:479-509). -/
def payoutHandler (dispatch : String → Int → Except SvcError String)
    (db : Db) (workerId : Nat) (amount : Option Int) : Db × PayoutResponse :=
  match findWorker db workerId with
  | none => (db, .workerNotFound)
  | some worker =>
    let payoutAmount : Int :=
      match amount with
      | some a => if a = 0 then worker.pending_amount else a
      | none => worker.pending_amount
    if payoutAmount ≤ 0 then (db, .noFunds)
    else if payoutAmount > worker.pending_amount then (db, .insufficientBalance)
    else
      let wid := nextWithdrawalId db
      let db1 := updateWorker db workerId (fun w =>
        { w with pending_amount := w.pending_amount - payoutAmount
                 locked_amount := w.locked_amount + payoutAmount })
      let db1 := { db1 with withdrawals := db1.withdrawals ++
        [⟨wid, workerId, payoutAmount, "pending", .Processing, false⟩] }
      match dispatch worker.address payoutAmount with
      | .ok txSignature =>
        let db2 := updateWithdrawal db1 wid (fun w =>
          { w with signature := txSignature, status := .Success, processedAt := true })
        let db3 := updateWorker db2 workerId (fun w =>
          { w with locked_amount := w.locked_amount - payoutAmount })
        (db3, .payoutSuccess wid payoutAmount)
      | .error _ =>
        let db2 := updateWithdrawal db1 wid (fun w =>
          { w with status := .Failure, processedAt := true })
        let db3 := updateWorker db2 workerId (fun w =>
          { w with pending_amount := w.pending_amount + payoutAmount
                   locked_amount := w.locked_amount - payoutAmount })
        (db3, .txFailed)

/-! ## Worker router: submission transaction (worker.js POST /submission) -/

/-- Modelled from the spec: the Prisma schema file is not under src/ (only
this one migration and the router's P2002 handler are), and the spec states
the missing constraint: "at most one Submission per (task-id, worker-id)
pair ... inserting a duplicate must fail distinctly (constraint
violation)".  This predicate decides whether inserting a submission by
`workerId` for `taskId` would violate that unique constraint. -/
def submissionExists (db : Db) (taskId workerId : Nat) : Bool :=
  match findTask db taskId with
  | none => false
  | some t => t.submissions.any (fun s => s.worker_id == workerId)

/-- The `prismaClient.$transaction` of `POST /submission` (worker.js:242-264):
create the submission (P2002 on a duplicate `(task_id, worker_id)` pair, per
the spec-modelled constraint above), then increment the worker's
`pending_amount` by the provisional `baseReward`. -/
def createSubmissionTx (db : Db) (workerId taskId selection : Nat) (baseReward : Nat) :
    Except SvcError Db :=
  if submissionExists db taskId workerId then
    .error (.uniqueViolation "Submission_task_id_worker_id_key")
  else
    match findTask db taskId with
    | none => .error (.notFound "Task not found")
    | some _ =>
      let db1 := updateTask db taskId (fun t =>
        { t with submissions := t.submissions ++ [⟨selection, workerId, baseReward⟩] })
      match findWorker db1 workerId with
      | none => .error (.notFound "Worker not found")
      | some _ =>
        .ok (updateWorker db1 workerId (fun w =>
          { w with pending_amount := w.pending_amount + (baseReward : Int) }))

/-- The handler's observable responses for the submission flow. -/
inductive SubmissionResponse
  | created
  | alreadySubmitted
  | serverError
deriving DecidableEq, Repr

/-- The error handling of `POST /submission` around the transaction
(worker.js:308-323): a thrown transaction rolls back (original `db` kept);
error code P2002 is answered with the distinct
"You have already submitted for this task" response (worker.js:311-318). -/
def submissionHandler (db : Db) (workerId taskId selection : Nat) (baseReward : Nat) :
    Db × SubmissionResponse :=
  match createSubmissionTx db workerId taskId selection baseReward with
  | .ok db2 => (db2, .created)
  | .error (.uniqueViolation _) => (db, .alreadySubmitted)
  | .error _ => (db, .serverError)

/-! ## Auxiliary predicates used by the verification -/

/-- Every entry of the vote object stores its own key as `optionId`
(established by `initVoteCounts` and preserved by `tallyVotes`). -/
def WellKeyed (m : VoteMap) : Prop :=
  ∀ p ∈ m, p.2.optionId = p.1

/-- The order `sortedResults` is arranged in: strictly greater vote count
first, and among equal vote counts ascending option id (the JavaScript
object's integer-key enumeration order, which the stable sort preserves). -/
def ConsensusOrder (a b : VoteAccum) : Prop :=
  b.count < a.count ∨ (b.count = a.count ∧ a.optionId < b.optionId)

/-- The same order on ranked result rows. -/
def RankedOrder (r1 r2 : RankedResult) : Prop :=
  r2.count < r1.count ∨ (r2.count = r1.count ∧ r1.optionId < r2.optionId)

/-- The ranks of a ranked-result list are consecutive starting at `k`. -/
def RanksFrom (k : Nat) : List RankedResult → Prop
  | [] => True
  | r :: rest => r.rank = k ∧ RanksFrom (k + 1) rest

/-- Total vote count stored in a vote object. -/
def countSum (m : VoteMap) : Nat :=
  (m.map (fun p => p.2.count)).sum

/-! ## Concrete fixtures used by witnesses and counterexamples -/

/-- A concrete pricing/reward configuration. -/
def exCfg : EnvConfig :=
  ⟨10, 20, 30, 40, 50, 60, 100, 80, 7/10, 4/10⟩

/-- A task whose two options are listed in descending id order and receive
one vote each: submissions by workers 11 and 22, requiring 2 reviews. -/
def exTask0 : Task :=
  ⟨1, .VIDEOS, 2, 1000, false, false, [⟨2⟩, ⟨1⟩], [⟨1, 11, 500⟩, ⟨2, 22, 500⟩]⟩

/-- A ledger holding `exTask0` and its two voters. -/
def exDb : Db :=
  { tasks := [exTask0]
    workers := [⟨11, "w1", 0, 0, 0, 0⟩, ⟨22, "w2", 0, 0, 0, 0⟩]
    taskResults := []
    withdrawals := [] }

/-- A dispatcher that always succeeds. -/
def exOkDispatch : String → Int → Except SvcError String :=
  fun _ _ => .ok "sig"

/-- A dispatcher that fails exactly for worker 11's wallet `"w1"`. -/
def exFailW1Dispatch : String → Int → Except SvcError String :=
  fun addr _ => if addr = "w1" then .error .payoutFailed else .ok "sig"

/-- A dispatcher that always fails. -/
def exFailDispatch : String → Int → Except SvcError String :=
  fun _ _ => .error .payoutFailed

/-- A ledger with one worker holding a 500-lamport pending balance. -/
def exPayoutDb : Db :=
  { tasks := []
    workers := [⟨11, "w1", 500, 0, 700, 3⟩]
    taskResults := []
    withdrawals := [] }

/-- The settlement produced by settling `exDb` with `exOkDispatch`
(checked by `rfl` in the C1 witness). -/
def exSettlement : SettlementResult :=
  ⟨1, ⟨1, 2, [⟨1, 1, [11], 1, 50⟩, ⟨2, 1, [22], 2, 50⟩],
       [⟨11, 1, 1, 100, 50⟩, ⟨22, 2, 2, 70, 50⟩]⟩,
   [⟨11, 100, "sig", 1⟩, ⟨22, 70, "sig", 2⟩]⟩

/-- The ledger produced by successfully settling `exDb` (the literal value
of `(processTaskCompletion exCfg exOkDispatch exDb 1).1`). -/
def exDbSettled : Db :=
  { tasks := [⟨1, .VIDEOS, 2, 1000, true, true, [⟨2⟩, ⟨1⟩],
      [⟨1, 11, 500⟩, ⟨2, 22, 500⟩]⟩]
    workers := [⟨11, "w1", 100, 0, 100, 1⟩, ⟨22, "w2", 70, 0, 70, 1⟩]
    taskResults := [⟨1, [⟨1, 1, 1, 50⟩, ⟨2, 1, 2, 50⟩]⟩]
    withdrawals := [] }

/-! ## Shared evaluation lemmas for the fixtures -/

/-- Consensus of the fixture ledger `exDb`, evaluated. -/
theorem exDb_consensus_eval :
    calculateConsensus exCfg exDb 1 = .ok exSettlement.consensus := by
  norm_num [calculateConsensus, checkTaskCompletion, findTask,
    MINIMUM_SUBMISSIONS_THRESHOLD, initVoteCounts, tallyVotes, objGet, objSet,
    objValues, sortByKey, insertByKey, sortByCountDesc, insertByCount,
    assignRanks, calculateWorkerRewards, rewardLoop, calculateWorkerReward,
    exCfg, exDb, exTask0, exSettlement, List.foldl, List.find?]

/-- Consensus of the settled fixture ledger, evaluated (the settlement does
not change the submissions, options or review count). -/
theorem exDbSettled_consensus_eval :
    calculateConsensus exCfg exDbSettled 1 = .ok exSettlement.consensus := by
  norm_num [calculateConsensus, checkTaskCompletion, findTask,
    MINIMUM_SUBMISSIONS_THRESHOLD, initVoteCounts, tallyVotes, objGet, objSet,
    objValues, sortByKey, insertByKey, sortByCountDesc, insertByCount,
    assignRanks, calculateWorkerRewards, rewardLoop, calculateWorkerReward,
    exCfg, exDbSettled, exSettlement, List.foldl, List.find?]

/-! ## C6: completion threshold -/

/-- C6: for a missing task `checkTaskCompletion` fails with the not-found
error, and for an existing task with a positive required review count it
succeeds and reports `isReadyForConsensus = true` exactly when
`currentSubmissions / requiredSubmissions >= 0.8`, i.e. when
`4 * required ≤ 5 * submissions`. -/
theorem checkTaskCompletion_ready_iff (db : Db) (taskId : Nat) :
    (findTask db taskId = none →
      checkTaskCompletion db taskId = .error (.notFound "Task not found"))
    ∧ (∀ task : Task, findTask db taskId = some task → 0 < task.reviewCount →
        ∃ st : CompletionStatus, checkTaskCompletion db taskId = .ok st
          ∧ st.currentSubmissions = task.submissions.length
          ∧ st.requiredSubmissions = task.reviewCount
          ∧ (st.isReadyForConsensus = true ↔
              4 * task.reviewCount ≤ 5 * task.submissions.length)) := by
  constructor
  · intro hnone
    simp [checkTaskCompletion, hnone]
  · intro task hfind hpos
    refine ⟨{ taskId := taskId
              requiredSubmissions := task.reviewCount
              currentSubmissions := task.submissions.length
              completionPercentage := (task.submissions.length : ℚ) / (task.reviewCount : ℚ)
              isReadyForConsensus := decide ((task.submissions.length : ℚ) / (task.reviewCount : ℚ)
                ≥ MINIMUM_SUBMISSIONS_THRESHOLD)
              task := task }, by simp [checkTaskCompletion, hfind], rfl, rfl, ?_⟩
    simp only [decide_eq_true_eq]
    have hr : (0 : ℚ) < (task.reviewCount : ℚ) := by exact_mod_cast hpos
    rw [ge_iff_le, MINIMUM_SUBMISSIONS_THRESHOLD,
      div_le_div_iff₀ (by norm_num) hr]
    constructor
    · intro h
      have : (4 * task.reviewCount : ℚ) ≤ (5 * task.submissions.length : ℚ) := by
        linarith
      exact_mod_cast this
    · intro h
      have : (4 * task.reviewCount : ℚ) ≤ (5 * task.submissions.length : ℚ) := by
        exact_mod_cast h
      push_cast at this
      linarith

/-- C6 witness: instantiated at `exDb`'s task 1 (2 submissions of 2
required, hence ready). -/
theorem checkTaskCompletion_ready_iff_witness :
    ∃ st : CompletionStatus, checkTaskCompletion exDb 1 = .ok st
      ∧ st.currentSubmissions = exTask0.submissions.length
      ∧ st.requiredSubmissions = exTask0.reviewCount
      ∧ (st.isReadyForConsensus = true ↔
          4 * exTask0.reviewCount ≤ 5 * exTask0.submissions.length) :=
  (checkTaskCompletion_ready_iff exDb 1).2 exTask0 (by rfl) (by decide)

/-! ## C8: duplicate submission -/

/-- C8: once a worker has a submission for a task, running the submission
transaction again for the same (task, worker) pair answers the distinct
already-submitted response (the P2002 unique-constraint handler) and
returns the ledger unchanged: no second vote, no change to the submission
count, and no second provisional pending-balance credit. -/
theorem duplicate_submission_rejected (db : Db) (workerId taskId selection baseReward : Nat)
    (hdup : submissionExists db taskId workerId = true) :
    submissionHandler db workerId taskId selection baseReward
      = (db, .alreadySubmitted) := by
  simp [submissionHandler, createSubmissionTx, hdup]

/-- C8 witness: worker 11 already voted on task 1 of `exDb`. -/
theorem duplicate_submission_rejected_witness :
    submissionHandler exDb 11 1 1 500 = (exDb, .alreadySubmitted) :=
  duplicate_submission_rejected exDb 11 1 1 500 (by rfl)

/-! ## C9: pricing table -/

/-- C9: for every (category, review-count) pair outside the fixed pricing
table `getServicePrice` yields `0` and the task-creation boundary check
surfaces the invalid-combination error, so a zero price is never usable;
conversely any accepted price is the positive configured in-table amount,
and each in-table pair maps to its configured constant. -/
theorem getServicePrice_invalid_tier (cfg : EnvConfig) (serviceType : ServiceType)
    (reviewCount : Nat) :
    (inPriceTable serviceType reviewCount = false →
      getServicePrice cfg serviceType reviewCount = 0
      ∧ validateUploadPricing cfg serviceType reviewCount
          = .error "Invalid service type and review count combination")
    ∧ (∀ amt : Nat, validateUploadPricing cfg serviceType reviewCount = .ok amt →
        inPriceTable serviceType reviewCount = true
        ∧ amt = getServicePrice cfg serviceType reviewCount ∧ 0 < amt)
    ∧ getServicePrice cfg .MARKETING_IMAGES 200 = cfg.marketingImages200Price
    ∧ getServicePrice cfg .MARKETING_IMAGES 500 = cfg.marketingImages500Price
    ∧ getServicePrice cfg .YOUTUBE_THUMBNAILS 200 = cfg.youtubeThumbnails200Price
    ∧ getServicePrice cfg .YOUTUBE_THUMBNAILS 500 = cfg.youtubeThumbnails500Price
    ∧ getServicePrice cfg .VIDEOS 100 = cfg.videos100Price
    ∧ getServicePrice cfg .VIDEOS 300 = cfg.videos300Price := by
  have hzero : inPriceTable serviceType reviewCount = false →
      getServicePrice cfg serviceType reviewCount = 0 := by
    intro htable
    cases serviceType <;>
      simp only [inPriceTable, Bool.or_eq_false_iff, beq_eq_false_iff_ne] at htable <;>
      simp [getServicePrice, htable.1, htable.2]
  refine ⟨fun htable => ⟨hzero htable, by simp [validateUploadPricing, hzero htable]⟩,
    ?_, rfl, rfl, rfl, rfl, rfl, rfl⟩
  intro amt hok
  simp only [validateUploadPricing] at hok
  split at hok
  · exact Except.noConfusion hok
  next h =>
    simp only [Except.ok.injEq] at hok
    subst hok
    refine ⟨?_, rfl, Nat.pos_of_ne_zero h⟩
    cases hb : inPriceTable serviceType reviewCount
    · exact absurd (hzero hb) h
    · rfl

/-- C9 witness: the VIDEOS category has no 200-review tier. -/
theorem getServicePrice_invalid_tier_witness :
    getServicePrice exCfg .VIDEOS 200 = 0
    ∧ validateUploadPricing exCfg .VIDEOS 200
        = .error "Invalid service type and review count combination" :=
  (getServicePrice_invalid_tier exCfg .VIDEOS 200).1 (by rfl)

/-! ## Shared helper lemmas about the ledger primitives -/

/-- `findTask` reads only the `tasks` table. -/
theorem findTask_tasks_congr (db db' : Db) (h : db.tasks = db'.tasks) (taskId : Nat) :
    findTask db taskId = findTask db' taskId := by
  unfold findTask; rw [h]

/-- Updating the matching row commutes with finding it, provided the update
preserves the primary key. -/
theorem find?_update_eq (l : List Task) (taskId : Nat) (f : Task → Task)
    (hid : ∀ t, (f t).id = t.id) :
    (l.map (fun t => if t.id == taskId then f t else t)).find? (fun t => t.id == taskId)
      = (l.find? (fun t => t.id == taskId)).map f := by
  induction l with
  | nil => rfl
  | cons t rest ih =>
    simp only [List.map_cons]
    by_cases h : (t.id == taskId) = true
    · have hft : ((f t).id == taskId) = true := by rw [hid]; exact h
      rw [if_pos h]
      simp [List.find?, hft, h]
    · have hb : (t.id == taskId) = false := by simpa using h
      rw [if_neg h]
      simp only [List.find?, hb]
      exact ih

/-- `findTask` after the settlement's done-update. -/
theorem findTask_updateTask_done (db : Db) (taskId : Nat) :
    findTask (updateTask db taskId
        (fun t => { t with done := true, completedAt := true })) taskId
      = (findTask db taskId).map
          (fun t => { t with done := true, completedAt := true }) := by
  unfold findTask updateTask
  exact find?_update_eq db.tasks taskId _ (fun t => rfl)

/-- On success, `distributeRewards` appends exactly one reward transaction
(worker id, amount, rank) per reward entry, in order. -/
theorem distributeRewards_ok_map (d : String → Int → Except SvcError String) :
    ∀ (rewards : List WorkerReward) (db : Db) (acc : List RewardTransaction)
      (db' : Db) (txs : List RewardTransaction),
      distributeRewards d rewards db acc = .ok (db', txs) →
      txs.map (fun t => (t.workerId, t.amount, t.rank))
        = acc.map (fun t => (t.workerId, t.amount, t.rank))
          ++ rewards.map (fun r => (r.workerId, r.amount, r.rank)) := by
  intro rewards
  induction rewards with
  | nil =>
    intro db acc db' txs h
    simp only [distributeRewards, Except.ok.injEq, Prod.mk.injEq] at h
    obtain ⟨-, rfl⟩ := h
    simp
  | cons r rest ih =>
    intro db acc db' txs h
    simp only [distributeRewards] at h
    split at h
    · exact Except.noConfusion h
    · split at h
      · exact Except.noConfusion h
      · split at h
        · exact Except.noConfusion h
        · have := ih _ _ _ _ h
          simpa using this

/-- `distributeRewards` touches only worker rows. -/
theorem distributeRewards_ok_frame (d : String → Int → Except SvcError String) :
    ∀ (rewards : List WorkerReward) (db : Db) (acc : List RewardTransaction)
      (db' : Db) (txs : List RewardTransaction),
      distributeRewards d rewards db acc = .ok (db', txs) →
      db'.tasks = db.tasks ∧ db'.taskResults = db.taskResults
        ∧ db'.withdrawals = db.withdrawals := by
  intro rewards
  induction rewards with
  | nil =>
    intro db acc db' txs h
    simp only [distributeRewards, Except.ok.injEq, Prod.mk.injEq] at h
    obtain ⟨rfl, -⟩ := h
    exact ⟨rfl, rfl, rfl⟩
  | cons r rest ih =>
    intro db acc db' txs h
    simp only [distributeRewards] at h
    split at h
    · exact Except.noConfusion h
    · split at h
      · exact Except.noConfusion h
      · split at h
        · exact Except.noConfusion h
        · simpa [updateWorker] using ih _ _ _ _ h

/-- `calculateConsensus` succeeds only on an existing task. -/
theorem calculateConsensus_findTask (cfg : EnvConfig) (db : Db) (taskId : Nat)
    (c : ConsensusResult) (h : calculateConsensus cfg db taskId = .ok c) :
    ∃ t : Task, findTask db taskId = some t := by
  unfold calculateConsensus checkTaskCompletion at h
  cases hf : findTask db taskId with
  | none =>
    simp only [hf] at h
    exact Except.noConfusion h
  | some t => exact ⟨t, rfl⟩

/-! ## C1: payout dispatch happens inside the ledger transaction -/

/-- C1 counterexample: settling `exDb` (two rewarded workers, wallets `"w1"`
and `"w2"`) with a dispatcher failing only for `"w1"` returns an error and
the untouched ledger: the task is not marked done, no Result exists, and
worker 22 — whose own dispatch would have succeeded — receives neither
ledger credit nor payout.  This contradicts the claim that payouts happen
only after the transaction commits and that one worker's dispatch failure
rolls back nothing and aborts no sibling payout. -/
theorem settlement_rollback_on_payout_failure_cex :
    processTaskCompletion exCfg exFailW1Dispatch exDb 1
        = (exDb, .error .payoutFailed)
    ∧ (findTask exDb 1).map Task.done = some false
    ∧ findWorker exDb 22 = some ⟨22, "w2", 0, 0, 0, 0⟩ := by
  refine ⟨?_, rfl, rfl⟩
  norm_num [processTaskCompletion, runSettlementTx, distributeRewards,
    calculateConsensus, checkTaskCompletion, calculateWorkerRewards, rewardLoop,
    calculateWorkerReward, assignRanks, sortByCountDesc, insertByCount, objValues,
    sortByKey, insertByKey, initVoteCounts, tallyVotes, objGet, objSet,
    findTask, findWorker, updateTask, updateWorker, hasTaskResult,
    MINIMUM_SUBMISSIONS_THRESHOLD, List.foldl, List.find?,
    exCfg, exDb, exTask0, exFailW1Dispatch]

/-- C1 (amended): `processTaskCompletion` invokes the Payout Dispatcher
once per rewarded worker **inside** the ledger transaction, before it
commits.  If every dispatch succeeds, the settlement records exactly one
reward transaction per rewarded worker and the ledger commit is visible
(task done, Result row present); if the transaction fails — in particular
when any single dispatch fails — every ledger mutation is rolled back and
the remaining workers' payouts are not attempted (the returned ledger is
exactly the caller's). -/
theorem settlement_payout_inside_transaction (cfg : EnvConfig)
    (dispatch : String → Int → Except SvcError String) (db : Db) (taskId : Nat) :
    (∀ e : SvcError, (processTaskCompletion cfg dispatch db taskId).2 = .error e →
      (processTaskCompletion cfg dispatch db taskId).1 = db)
    ∧ (∀ s : SettlementResult, (processTaskCompletion cfg dispatch db taskId).2 = .ok s →
        s.rewardTransactions.map (fun t => (t.workerId, t.amount, t.rank))
          = s.consensus.workerRewards.map (fun r => (r.workerId, r.amount, r.rank))
        ∧ (findTask (processTaskCompletion cfg dispatch db taskId).1 taskId).map Task.done
            = some true
        ∧ hasTaskResult (processTaskCompletion cfg dispatch db taskId).1 taskId = true) := by
  cases hc : calculateConsensus cfg db taskId with
  | error e0 =>
    refine ⟨fun e h => ?_, fun s h => ?_⟩
    · simp [processTaskCompletion, hc]
    · simp [processTaskCompletion, hc] at h
  | ok consensus =>
    cases ht : runSettlementTx dispatch db taskId consensus with
    | error e0 =>
      refine ⟨fun e h => ?_, fun s h => ?_⟩
      · simp [processTaskCompletion, hc, ht]
      · simp [processTaskCompletion, hc, ht] at h
    | ok pair =>
      obtain ⟨db2, result⟩ := pair
      have hps : processTaskCompletion cfg dispatch db taskId = (db2, .ok result) := by
        simp [processTaskCompletion, hc, ht]
      refine ⟨fun e h => ?_, fun s h => ?_⟩
      · rw [hps] at h; exact Except.noConfusion h
      · rw [hps] at h ⊢
        simp only [Except.ok.injEq] at h
        subst h
        simp only [runSettlementTx] at ht
        cases hf : findTask db taskId with
        | none =>
          simp only [hf] at ht
          exact Except.noConfusion ht
        | some t0 =>
          simp only [hf] at ht
          by_cases hres : hasTaskResult db taskId = true
          · rw [if_pos hres] at ht
            exact Except.noConfusion ht
          · rw [if_neg hres] at ht
            cases hd : distributeRewards dispatch consensus.workerRewards
                { updateTask db taskId
                    (fun t => { t with done := true, completedAt := true }) with
                  taskResults := db.taskResults
                    ++ [⟨taskId, consensus.results.map (fun r =>
                          ⟨r.optionId, r.count, r.rank, r.percentage⟩)⟩] } [] with
            | error e1 => rw [hd] at ht; exact Except.noConfusion ht
            | ok p3 =>
              obtain ⟨db3, txs⟩ := p3
              rw [hd] at ht
              simp only [Except.ok.injEq, Prod.mk.injEq] at ht
              obtain ⟨rfl, rfl⟩ := ht
              obtain ⟨hT, hR, -⟩ := distributeRewards_ok_frame dispatch _ _ _ _ _ hd
              refine ⟨?_, ?_, ?_⟩
              · simpa using distributeRewards_ok_map dispatch _ _ _ _ _ hd
              · have h1 : findTask db3 taskId
                    = (findTask db taskId).map
                        (fun t => { t with done := true, completedAt := true }) :=
                  (findTask_tasks_congr db3
                    (updateTask db taskId
                      (fun t => { t with done := true, completedAt := true }))
                    hT taskId).trans (findTask_updateTask_done db taskId)
                show Option.map Task.done (findTask db3 taskId) = some true
                rw [h1, hf]
                rfl
              · show hasTaskResult db3 taskId = true
                simp only [hasTaskResult]
                rw [hR]
                simp

/-- C1 witness (for the amended theorem): the fully successful settlement of
`exDb` dispatches exactly one payout per rewarded worker and commits the
ledger. -/
theorem settlement_payout_inside_transaction_witness :
    exSettlement.rewardTransactions.map (fun t => (t.workerId, t.amount, t.rank))
      = exSettlement.consensus.workerRewards.map (fun r => (r.workerId, r.amount, r.rank))
    ∧ (findTask (processTaskCompletion exCfg exOkDispatch exDb 1).1 1).map Task.done
        = some true
    ∧ hasTaskResult (processTaskCompletion exCfg exOkDispatch exDb 1).1 1 = true :=
  (settlement_payout_inside_transaction exCfg exOkDispatch exDb 1).2 exSettlement
    (by
      have hcons : calculateConsensus exCfg exDb 1 = .ok exSettlement.consensus :=
        exDb_consensus_eval
      have htx : runSettlementTx exOkDispatch exDb 1 exSettlement.consensus
          = .ok (exDbSettled, exSettlement) := by
        simp [runSettlementTx, distributeRewards, findTask, findWorker, updateTask,
          updateWorker, hasTaskResult, exOkDispatch, exDb, exTask0, exDbSettled,
          exSettlement, List.find?]
      unfold processTaskCompletion
      simp only [hcons, htx])

/-! ## C2: idempotency through the Result uniqueness constraint -/

/-- C2: invoking `processTaskCompletion` on a ledger that already holds a
`TaskResult` row for the task (and where consensus preconditions hold, as
they do after any successful first settlement) fails with the P2002 unique
violation of `TaskResult_task_id_key` — the spec's `AlreadySettled` — and
returns the ledger unchanged: no balance is credited twice and the existing
Result is untouched. -/
theorem second_settlement_already_settled (cfg : EnvConfig)
    (dispatch : String → Int → Except SvcError String) (db : Db) (taskId : Nat)
    (hready : ∃ c : ConsensusResult, calculateConsensus cfg db taskId = .ok c)
    (hres : hasTaskResult db taskId = true) :
    processTaskCompletion cfg dispatch db taskId
      = (db, .error (.uniqueViolation "TaskResult_task_id_key")) := by
  obtain ⟨c, hc⟩ := hready
  obtain ⟨t, hf⟩ := calculateConsensus_findTask cfg db taskId c hc
  simp [processTaskCompletion, hc, runSettlementTx, hf, hres]

/-- C2 witness: a second settlement of the already-settled ledger fails with
the unique violation and changes nothing. -/
theorem second_settlement_already_settled_witness :
    processTaskCompletion exCfg exOkDispatch exDbSettled 1
      = (exDbSettled, .error (.uniqueViolation "TaskResult_task_id_key")) :=
  second_settlement_already_settled exCfg exOkDispatch exDbSettled 1
    ⟨exSettlement.consensus, exDbSettled_consensus_eval⟩ (by rfl)

/-! ## C3: withdrawal rollback on payout failure -/

/-- Moving `X` from pending to locked and back restores every worker row. -/
theorem workers_move_roundtrip (workers : List Worker) (workerId : Nat) (X : Int) :
    ((workers.map (fun w => if w.id == workerId then
        { w with pending_amount := w.pending_amount - X,
                 locked_amount := w.locked_amount + X }
      else w)).map (fun w => if w.id == workerId then
        { w with pending_amount := w.pending_amount + X,
                 locked_amount := w.locked_amount - X }
      else w)) = workers := by
  induction workers with
  | nil => rfl
  | cons w rest ih =>
    cases w with
    | mk wid addr p l te tc =>
      simp only [List.map_cons, List.cons.injEq]
      refine ⟨?_, ih⟩
      by_cases h : (wid == workerId) = true
      · simp only [h, if_true]
        have hp : p - X + X = p := by omega
        have hl : l + X - X = l := by omega
        simp [hp, hl]
      · have hb : (wid == workerId) = false := by simpa using h
        simp [hb]

/-- A by-id row update over a list free of that id, extended with the fresh
row, updates only the fresh row. -/
theorem withdrawals_update_append (wds : List WithdrawalRow) (wid : Nat)
    (row : WithdrawalRow) (f : WithdrawalRow → WithdrawalRow)
    (hids : ∀ w ∈ wds, w.id ≠ wid) (hrow : row.id = wid) :
    ((wds ++ [row]).map (fun w => if w.id == wid then f w else w))
      = wds ++ [f row] := by
  rw [List.map_append]
  congr 1
  · calc wds.map (fun w => if w.id == wid then f w else w)
        = wds.map id := List.map_congr_left fun w hw => by
          simp [show (w.id == wid) = false from beq_eq_false_iff_ne.mpr (hids w hw)]
      _ = wds := List.map_id wds
  · simp only [List.map_cons, List.map_nil]
    rw [if_pos (beq_iff_eq.mpr hrow)]

/-- C3: a worker-initiated withdrawal of `0 < X ≤ pending` whose dispatch
fails ends in the compensating transaction: the returned ledger equals the
original one except for a single appended Withdrawal audit row with status
`Failure` and processed-at set — pending and locked balances (and every
other worker field) are exactly restored. -/
theorem withdrawal_failure_rollback (dispatch : String → Int → Except SvcError String)
    (db : Db) (workerId : Nat) (X : Int) (worker : Worker) (e : SvcError)
    (hw : findWorker db workerId = some worker)
    (hpos : 0 < X) (hle : X ≤ worker.pending_amount)
    (hids : ∀ w ∈ db.withdrawals, w.id ≠ nextWithdrawalId db)
    (hfail : dispatch worker.address X = .error e) :
    payoutHandler dispatch db workerId (some X)
      = ({ db with withdrawals := db.withdrawals ++
            [⟨nextWithdrawalId db, workerId, X, "pending", TxnStatus.Failure, true⟩] },
         PayoutResponse.txFailed) := by
  have hX0 : ¬(X = 0) := by omega
  have h1 : ¬(X ≤ 0) := by omega
  have h2 : ¬(X > worker.pending_amount) := by omega
  simp only [payoutHandler, hw, hX0, if_false, h1, h2, hfail]
  cases db with
  | mk tasks workers trs wds =>
    simp only [updateWorker, updateWithdrawal, nextWithdrawalId]
    rw [workers_move_roundtrip workers workerId X,
      withdrawals_update_append wds (wds.length + 1) _ _ hids rfl]

/-- C3 witness: a 500-lamport withdrawal against a 500-lamport pending
balance, failing at the dispatcher, restores pending=500, locked=0 and
leaves only the Failure audit row. -/
theorem withdrawal_failure_rollback_witness :
    payoutHandler exFailDispatch exPayoutDb 11 (some 500)
      = ({ exPayoutDb with withdrawals := exPayoutDb.withdrawals ++
            [⟨nextWithdrawalId exPayoutDb, 11, 500, "pending", TxnStatus.Failure, true⟩] },
         PayoutResponse.txFailed) :=
  withdrawal_failure_rollback exFailDispatch exPayoutDb 11 500
    ⟨11, "w1", 500, 0, 700, 3⟩ .payoutFailed (by rfl) (by decide) (by decide)
    (by simp [exPayoutDb]) (by rfl)

/-! ## C10: the mock dispatcher never fails -/

/-- With the mock `sendReward` as dispatcher the reward loop can fail only
with a record-not-found error, never with a payout error. -/
theorem distributeRewards_mock_no_payout_error (entropy : List Nat) :
    ∀ (rewards : List WorkerReward) (db : Db) (acc : List RewardTransaction),
      distributeRewards (sendReward entropy) rewards db acc ≠ .error .payoutFailed := by
  intro rewards
  induction rewards with
  | nil => intro db acc h; exact Except.noConfusion h
  | cons r rest ih =>
    intro db acc
    simp only [distributeRewards]
    split
    · simp
    · split
      · simp
      · simp only [sendReward]
        exact ih _ _

/-- `calculateConsensus` never reports a payout error. -/
theorem calculateConsensus_no_payout_error (cfg : EnvConfig) (db : Db) (taskId : Nat) :
    calculateConsensus cfg db taskId ≠ .error .payoutFailed := by
  unfold calculateConsensus
  cases hc : checkTaskCompletion db taskId with
  | error e =>
    unfold checkTaskCompletion at hc
    cases hf : findTask db taskId with
    | none =>
      simp only [hf] at hc
      simp only [Except.error.injEq] at hc
      subst hc
      simp
    | some t =>
      simp only [hf] at hc
      exact Except.noConfusion hc
  | ok st =>
    split
    · simp_all
    · split <;> simp

/-- The settlement transaction with the mock dispatcher never fails with a
payout error. -/
theorem runSettlementTx_mock_no_payout_error (entropy : List Nat) (db : Db)
    (taskId : Nat) (c : ConsensusResult) :
    runSettlementTx (sendReward entropy) db taskId c ≠ .error .payoutFailed := by
  unfold runSettlementTx
  cases hf : findTask db taskId with
  | none => simp
  | some t =>
    split
    · simp
    · split
      · simp
      · split
        · next e heq =>
          intro h
          simp only [Except.error.injEq] at h
          subst h
          exact distributeRewards_mock_no_payout_error entropy _ _ _ heq
        · simp

/-- C10: `sendReward` always returns a (mock) signature, so the payout
failure branches are unreachable with the dispatcher as shipped: a
withdrawal can never take the rollback branch (no new withdrawal row ends
in `Failure`) and a settlement can never report `PayoutFailed`. -/
theorem sendReward_never_fails (entropy : List Nat) (db : Db) (workerId : Nat)
    (amount : Option Int) (cfg : EnvConfig) (taskId : Nat) :
    (∀ addr : String, ∀ amt : Int, ∃ sig : String,
        sendReward entropy addr amt = .ok sig)
    ∧ (payoutHandler (sendReward entropy) db workerId amount).2
        ≠ PayoutResponse.txFailed
    ∧ (∀ w ∈ (payoutHandler (sendReward entropy) db workerId amount).1.withdrawals,
        w ∈ db.withdrawals ∨ w.status = TxnStatus.Success)
    ∧ (processTaskCompletion cfg (sendReward entropy) db taskId).2
        ≠ .error .payoutFailed := by
  refine ⟨fun addr amt => ⟨base58Encode entropy, rfl⟩, ?_, ?_, ?_⟩
  · unfold payoutHandler
    simp only [sendReward]
    repeat' split
    all_goals simp
  · unfold payoutHandler
    simp only [sendReward]
    repeat' split
    all_goals first
      | exact fun w hwm => .inl hwm
      | (intro w hwm
         simp only [updateWorker, updateWithdrawal] at hwm
         rw [List.mem_map] at hwm
         obtain ⟨v, hv, rfl⟩ := hwm
         rw [List.mem_append] at hv
         cases hv with
         | inl hv =>
           by_cases hid : (v.id == nextWithdrawalId db) = true
           · right; simp [hid]
           · left; simpa [hid] using hv
         | inr hv =>
           right
           simp only [List.mem_singleton] at hv
           subst hv
           simp)
  · cases hc : calculateConsensus cfg db taskId with
    | error e =>
      simp only [processTaskCompletion, hc]
      intro h
      simp only [Except.error.injEq] at h
      subst h
      exact calculateConsensus_no_payout_error cfg db taskId hc
    | ok c =>
      simp only [processTaskCompletion, hc]
      cases ht : runSettlementTx (sendReward entropy) db taskId c with
      | error e =>
        intro h
        have h' : (Except.error e : Except SvcError SettlementResult)
            = .error .payoutFailed := h
        simp only [Except.error.injEq] at h'
        subst h'
        exact runSettlementTx_mock_no_payout_error entropy db taskId c ht
      | ok p =>
        obtain ⟨db2, r⟩ := p
        intro h
        exact Except.noConfusion (h : (Except.ok r : Except SvcError SettlementResult)
          = .error .payoutFailed)

/-- C10 witness: the mock dispatcher completes the 500-lamport withdrawal of
`exPayoutDb` successfully — the created audit row has status `Success`, not
`Failure`. -/
theorem sendReward_never_fails_witness :
    (payoutHandler (sendReward [0, 1, 2]) exPayoutDb 11 (some 500)).2
        ≠ PayoutResponse.txFailed
    ∧ ((⟨1, 11, 500, base58Encode [0, 1, 2], TxnStatus.Success, true⟩ : WithdrawalRow)
          ∈ exPayoutDb.withdrawals
        ∨ (⟨1, 11, 500, base58Encode [0, 1, 2], TxnStatus.Success, true⟩ :
            WithdrawalRow).status = TxnStatus.Success) :=
  ⟨(sendReward_never_fails [0, 1, 2] exPayoutDb 11 (some 500) exCfg 1).2.1,
   (sendReward_never_fails [0, 1, 2] exPayoutDb 11 (some 500) exCfg 1).2.2.1
     ⟨1, 11, 500, base58Encode [0, 1, 2], TxnStatus.Success, true⟩
     (by simp [payoutHandler, findWorker, exPayoutDb, sendReward, updateWorker,
        updateWithdrawal, nextWithdrawalId, List.find?])⟩

/-! ## Lemmas about the vote object -/

theorem objGet_mem {k : Nat} {m : VoteMap} {a : VoteAccum}
    (h : objGet k m = some a) : (k, a) ∈ m := by
  induction m with
  | nil => exact Option.noConfusion h
  | cons p rest ih =>
    rw [objGet] at h
    split at h
    · next heq =>
      obtain ⟨k0, v0⟩ := p
      simp only [Option.some.injEq] at h
      simp only at heq
      subst heq
      subst h
      exact List.mem_cons_self _ _
    · exact List.mem_cons_of_mem _ (ih h)

theorem objGet_isSome_iff (k : Nat) (m : VoteMap) :
    (objGet k m).isSome ↔ k ∈ objKeys m := by
  induction m with
  | nil => simp [objGet, objKeys]
  | cons p rest ih =>
    obtain ⟨k0, v0⟩ := p
    by_cases h : k0 = k
    · subst h
      simp [objGet, objKeys]
    · simp only [objGet, if_neg h, objKeys, List.map_cons, List.mem_cons]
      rw [ih]
      simp [objKeys, Ne.symm h]

theorem objKeys_objSet_of_get_some {k : Nat} {m : VoteMap} {a : VoteAccum}
    (v : VoteAccum) (h : objGet k m = some a) :
    objKeys (objSet k v m) = objKeys m := by
  induction m with
  | nil => exact Option.noConfusion h
  | cons p rest ih =>
    obtain ⟨k0, v0⟩ := p
    by_cases heq : k0 = k
    · subst heq
      simp [objSet, objKeys]
    · rw [objGet, if_neg heq] at h
      simp only [objSet, if_neg heq, objKeys, List.map_cons, List.cons.injEq, true_and]
      exact (by simpa [objKeys] using ih h)

theorem objKeys_objSet_of_get_none {k : Nat} {m : VoteMap}
    (v : VoteAccum) (h : objGet k m = none) :
    objKeys (objSet k v m) = objKeys m ++ [k] := by
  induction m with
  | nil => rfl
  | cons p rest ih =>
    obtain ⟨k0, v0⟩ := p
    by_cases heq : k0 = k
    · subst heq
      rw [objGet, if_pos rfl] at h
      exact Option.noConfusion h
    · rw [objGet, if_neg heq] at h
      simp only [objSet, if_neg heq, objKeys, List.map_cons, List.cons_append,
        List.cons.injEq, true_and]
      exact ih h

theorem wellKeyed_objSet {m : VoteMap} {k : Nat} {v : VoteAccum}
    (hm : WellKeyed m) (hv : v.optionId = k) : WellKeyed (objSet k v m) := by
  induction m with
  | nil => intro p hp; simp only [objSet, List.mem_singleton] at hp; subst hp; exact hv
  | cons q rest ih =>
    obtain ⟨k0, v0⟩ := q
    intro p hp
    by_cases heq : k0 = k
    · subst heq
      rw [show objSet k0 v ((k0, v0) :: rest) = (k0, v) :: rest from by
        simp [objSet]] at hp
      rcases List.mem_cons.mp hp with h | h
      · subst h; exact hv
      · exact hm p (List.mem_cons_of_mem _ h)
    · rw [show objSet k v ((k0, v0) :: rest) = (k0, v0) :: objSet k v rest from by
        simp [objSet, heq]] at hp
      rcases List.mem_cons.mp hp with h | h
      · subst h; exact hm (k0, v0) (List.mem_cons_self _ _)
      · exact ih (fun q hq => hm q (List.mem_cons_of_mem _ hq)) p h

theorem wellKeyed_initVoteCounts (options : List TaskOption) :
    WellKeyed (initVoteCounts options) := by
  have haux : ∀ (l : List TaskOption) (m : VoteMap), WellKeyed m →
      WellKeyed (l.foldl (fun m o => objSet o.id ⟨o.id, 0, []⟩ m) m) := by
    intro l
    induction l with
    | nil => intro m hm; exact hm
    | cons o rest ih =>
      intro m hm
      exact ih _ (wellKeyed_objSet hm rfl)
  exact haux options [] (fun p hp => absurd hp (List.not_mem_nil p))

theorem objKeys_tallyVotes (subs : List Submission) (m : VoteMap) :
    objKeys (tallyVotes subs m) = objKeys m := by
  induction subs generalizing m with
  | nil => rfl
  | cons s rest ih =>
    rw [tallyVotes, List.foldl_cons]
    cases hg : objGet s.option_id m with
    | none => exact ih m
    | some a => exact (ih _).trans (objKeys_objSet_of_get_some _ hg)

theorem wellKeyed_tallyVotes (subs : List Submission) {m : VoteMap}
    (hm : WellKeyed m) : WellKeyed (tallyVotes subs m) := by
  induction subs generalizing m with
  | nil => exact hm
  | cons s rest ih =>
    rw [tallyVotes, List.foldl_cons]
    cases hg : objGet s.option_id m with
    | none => exact ih hm
    | some a =>
      have ha : a.optionId = s.option_id := hm _ (objGet_mem hg)
      exact ih (wellKeyed_objSet hm ha)

theorem objKeys_initVoteCounts (options : List TaskOption)
    (hnd : (options.map TaskOption.id).Nodup) :
    objKeys (initVoteCounts options) = options.map TaskOption.id := by
  have haux : ∀ (l : List TaskOption) (m : VoteMap),
      (∀ o ∈ l, o.id ∉ objKeys m) → (l.map TaskOption.id).Nodup →
      objKeys (l.foldl (fun m o => objSet o.id ⟨o.id, 0, []⟩ m) m)
        = objKeys m ++ l.map TaskOption.id := by
    intro l
    induction l with
    | nil => intro m _ _; simp
    | cons o rest ih =>
      intro m hnew hnd
      rw [List.foldl_cons]
      have hnone : objGet o.id m = none := by
        cases hg : objGet o.id m with
        | none => rfl
        | some a =>
          exact absurd ((objGet_isSome_iff o.id m).mp (by simp [hg]))
            (hnew o (List.mem_cons_self _ _))
      rw [ih _ ?_ (List.nodup_cons.mp (by simpa using hnd)).2,
        objKeys_objSet_of_get_none _ hnone]
      · simp
      · intro o' ho'
        rw [objKeys_objSet_of_get_none _ hnone, List.mem_append]
        rintro (h | h)
        · exact hnew o' (List.mem_cons_of_mem _ ho') h
        · simp only [List.mem_singleton] at h
          have : o'.id ∈ rest.map TaskOption.id := List.mem_map_of_mem _ ho'
          rw [h] at this
          exact (List.nodup_cons.mp (by simpa using hnd)).1 this
  simpa using haux options [] (by simp [objKeys]) hnd

/-! ## Lemmas about the two insertion sorts -/

theorem insertByKey_perm (p : Nat × VoteAccum) (l : VoteMap) :
    (insertByKey p l).Perm (p :: l) := by
  induction l with
  | nil => exact List.Perm.refl _
  | cons q qs ih =>
    rw [insertByKey]
    split
    · exact List.Perm.refl _
    · exact (List.Perm.cons q ih).trans (List.Perm.swap p q qs)

theorem sortByKey_perm (m : VoteMap) : (sortByKey m).Perm m := by
  induction m with
  | nil => exact List.Perm.refl _
  | cons p ps ih =>
    exact (insertByKey_perm p (sortByKey ps)).trans (List.Perm.cons p ih)

theorem insertByKey_pairwise (p : Nat × VoteAccum) (l : VoteMap)
    (hl : l.Pairwise (fun a b => a.1 ≤ b.1)) :
    (insertByKey p l).Pairwise (fun a b => a.1 ≤ b.1) := by
  induction l with
  | nil => exact List.pairwise_singleton _ _
  | cons q qs ih =>
    rw [insertByKey]
    split
    · next hle =>
      refine List.Pairwise.cons ?_ hl
      intro b hb
      rcases List.mem_cons.mp hb with h | h
      · subst h; exact hle
      · exact le_trans hle (List.rel_of_pairwise_cons hl h)
    · next hgt =>
      refine List.Pairwise.cons ?_ (ih (List.Pairwise.of_cons hl))
      intro b hb
      rcases List.mem_cons.mp ((insertByKey_perm p qs).mem_iff.mp hb) with h | h
      · subst h; exact le_of_not_le hgt
      · exact List.rel_of_pairwise_cons hl h

theorem sortByKey_pairwise (m : VoteMap) :
    (sortByKey m).Pairwise (fun a b => a.1 ≤ b.1) := by
  induction m with
  | nil => exact List.Pairwise.nil
  | cons p ps ih => exact insertByKey_pairwise p (sortByKey ps) ih

theorem objValues_pairwise_id_lt {m : VoteMap}
    (hwk : WellKeyed m) (hnd : (objKeys m).Nodup) :
    (objValues m).Pairwise (fun a b : VoteAccum => a.optionId < b.optionId) := by
  have hperm := sortByKey_perm m
  have hwk' : WellKeyed (sortByKey m) := fun p hp => hwk p (hperm.mem_iff.mp hp)
  have hnd' : ((sortByKey m).map Prod.fst).Nodup :=
    ((hperm.map Prod.fst).nodup_iff).mpr hnd
  have hne : (sortByKey m).Pairwise (fun a b => a.1 ≠ b.1) :=
    List.pairwise_map.mp hnd'
  have hlt : (sortByKey m).Pairwise (fun a b => a.1 < b.1) :=
    ((sortByKey_pairwise m).and hne).imp (fun h => lt_of_le_of_ne h.1 h.2)
  rw [objValues, List.pairwise_map]
  exact hlt.imp_of_mem (fun {a b} ha hb h => by
    rw [hwk' a ha, hwk' b hb]; exact h)

theorem insertByCount_perm (x : VoteAccum) (l : List VoteAccum) :
    (insertByCount x l).Perm (x :: l) := by
  induction l with
  | nil => exact List.Perm.refl _
  | cons y ys ih =>
    rw [insertByCount]
    split
    · exact List.Perm.refl _
    · exact (List.Perm.cons y ih).trans (List.Perm.swap x y ys)

theorem sortByCountDesc_perm (l : List VoteAccum) :
    (sortByCountDesc l).Perm l := by
  induction l with
  | nil => exact List.Perm.refl _
  | cons x xs ih =>
    exact (insertByCount_perm x (sortByCountDesc xs)).trans (List.Perm.cons x ih)

theorem insertByCount_pairwise (a : VoteAccum) (l : List VoteAccum)
    (hl : l.Pairwise ConsensusOrder)
    (hid : ∀ b ∈ l, a.optionId < b.optionId) :
    (insertByCount a l).Pairwise ConsensusOrder := by
  induction l with
  | nil => exact List.pairwise_singleton _ _
  | cons y ys ih =>
    rw [insertByCount]
    split
    · next hle =>
      refine List.Pairwise.cons ?_ hl
      intro b hb
      have hble : b.count ≤ y.count := by
        rcases List.mem_cons.mp hb with h | h
        · subst h; exact le_refl _
        · rcases List.rel_of_pairwise_cons hl h with h' | h'
          · exact le_of_lt h'
          · exact le_of_eq h'.1
      rcases lt_or_eq_of_le (le_trans hble hle) with h' | h'
      · exact Or.inl h'
      · exact Or.inr ⟨h', hid b hb⟩
    · next hgt =>
      have hya : a.count < y.count := lt_of_not_le hgt
      refine List.Pairwise.cons ?_
        (ih (List.Pairwise.of_cons hl) (fun b hb => hid b (List.mem_cons_of_mem _ hb)))
      intro b hb
      rcases List.mem_cons.mp ((insertByCount_perm a ys).mem_iff.mp hb) with h | h
      · subst h; exact Or.inl hya
      · exact List.rel_of_pairwise_cons hl h

theorem sortByCountDesc_pairwise (l : List VoteAccum)
    (hl : l.Pairwise (fun a b => a.optionId < b.optionId)) :
    (sortByCountDesc l).Pairwise ConsensusOrder := by
  induction l with
  | nil => exact List.Pairwise.nil
  | cons x xs ih =>
    refine insertByCount_pairwise x (sortByCountDesc xs)
      (ih (List.Pairwise.of_cons hl)) ?_
    intro b hb
    exact List.rel_of_pairwise_cons hl ((sortByCountDesc_perm xs).mem_iff.mp hb)

/-! ## Lemmas about rank assignment -/

theorem assignRanks_map_rank (T s : Nat) (l : List VoteAccum) :
    (assignRanks T s l).map RankedResult.rank = List.range' s l.length := by
  induction l generalizing s with
  | nil => rfl
  | cons a rest ih => simp [assignRanks, List.range'_succ, ih]

theorem assignRanks_map_optionId (T s : Nat) (l : List VoteAccum) :
    (assignRanks T s l).map RankedResult.optionId = l.map VoteAccum.optionId := by
  induction l generalizing s with
  | nil => rfl
  | cons a rest ih => simp [assignRanks, ih]

theorem assignRanks_map_count (T s : Nat) (l : List VoteAccum) :
    (assignRanks T s l).map RankedResult.count = l.map VoteAccum.count := by
  induction l generalizing s with
  | nil => rfl
  | cons a rest ih => simp [assignRanks, ih]

theorem mem_assignRanks {T s : Nat} {l : List VoteAccum} {r : RankedResult}
    (h : r ∈ assignRanks T s l) :
    ∃ a ∈ l, r.optionId = a.optionId ∧ r.count = a.count ∧ r.voters = a.voters
      ∧ r.percentage = (a.count : ℚ) / (T : ℚ) * 100 := by
  induction l generalizing s with
  | nil => cases h
  | cons a rest ih =>
    rw [assignRanks] at h
    rcases List.mem_cons.mp h with h | h
    · subst h
      exact ⟨a, List.mem_cons_self _ _, rfl, rfl, rfl, rfl⟩
    · obtain ⟨b, hb, hprops⟩ := ih h
      exact ⟨b, List.mem_cons_of_mem _ hb, hprops⟩

theorem assignRanks_pairwise {l : List VoteAccum} (T s : Nat)
    (hl : l.Pairwise ConsensusOrder) :
    (assignRanks T s l).Pairwise RankedOrder := by
  induction l generalizing s with
  | nil => exact List.Pairwise.nil
  | cons a rest ih =>
    rw [assignRanks]
    refine List.Pairwise.cons ?_ (ih (s + 1) (List.Pairwise.of_cons hl))
    intro r hr
    obtain ⟨b, hb, hopt, hcnt, -, -⟩ := mem_assignRanks hr
    have hab : ConsensusOrder a b := List.rel_of_pairwise_cons hl hb
    rcases hab with h | h
    · exact Or.inl (by rw [hcnt]; exact h)
    · exact Or.inr ⟨by rw [hcnt]; exact h.1, by rw [hopt]; exact h.2⟩

/-- Structural description of a successful `calculateConsensus` call. -/
theorem calculateConsensus_ok_spec (cfg : EnvConfig) (db : Db) (taskId : Nat)
    (task : Task) (c : ConsensusResult)
    (hfind : findTask db taskId = some task)
    (hok : calculateConsensus cfg db taskId = .ok c) :
    c.taskId = taskId
    ∧ c.totalSubmissions = task.submissions.length
    ∧ c.results = assignRanks task.submissions.length 1
        (sortByCountDesc (objValues
          (tallyVotes task.submissions (initVoteCounts task.options))))
    ∧ c.workerRewards = calculateWorkerRewards cfg task c.results
    ∧ (task.submissions.length : ℚ) / (task.reviewCount : ℚ)
        ≥ MINIMUM_SUBMISSIONS_THRESHOLD := by
  unfold calculateConsensus checkTaskCompletion at hok
  simp only [hfind] at hok
  split at hok
  · exact Except.noConfusion hok
  · next hcond =>
    simp only [Except.ok.injEq] at hok
    subst hok
    exact ⟨rfl, rfl, rfl, rfl, by simpa using hcond⟩

/-! ## C5: ranks are positional -/

/-- C5 counterexample: in `exDb` the task's options are listed in the order
[id 2, id 1] and tie with one vote each, yet the code ranks option 1 first —
the tie-break is the ascending-id enumeration order of the JavaScript vote
object, not the options' input order, contradicting the claim that tied
options keep their relative input (first-seen) order. -/
theorem consensus_tie_input_order_cex :
    exTask0.options.map TaskOption.id = [2, 1]
    ∧ (calculateConsensus exCfg exDb 1).toOption.map
        (fun c => c.results.map (fun r => (r.optionId, r.count, r.rank)))
      = some [(1, 1, 1), (2, 1, 2)] := by
  refine ⟨rfl, ?_⟩
  rw [exDb_consensus_eval]
  rfl

/-- C5 (amended): for every existing task whose option ids are distinct, the
ranks assigned by `calculateConsensus` are exactly the positions `1..N` of
the options sorted by vote count descending (a permutation of `1..N` with no
duplicate ranks even on vote-count ties), and the sorted order breaks ties
by **ascending option id** — the JavaScript object's integer-key enumeration
order — rather than by the options' input (first-seen) order. -/
theorem consensus_ranks_positional (cfg : EnvConfig) (db : Db) (taskId : Nat)
    (task : Task) (c : ConsensusResult)
    (hfind : findTask db taskId = some task)
    (hnodup : (task.options.map TaskOption.id).Nodup)
    (hok : calculateConsensus cfg db taskId = .ok c) :
    c.results.map RankedResult.rank = List.range' 1 task.options.length
    ∧ c.results.Pairwise RankedOrder := by
  obtain ⟨-, -, hres, -, -⟩ := calculateConsensus_ok_spec cfg db taskId task c hfind hok
  have hkeys : objKeys (tallyVotes task.submissions (initVoteCounts task.options))
      = task.options.map TaskOption.id :=
    (objKeys_tallyVotes _ _).trans (objKeys_initVoteCounts _ hnodup)
  have hwk : WellKeyed (tallyVotes task.submissions (initVoteCounts task.options)) :=
    wellKeyed_tallyVotes _ (wellKeyed_initVoteCounts _)
  have hnd : (objKeys (tallyVotes task.submissions (initVoteCounts task.options))).Nodup := by
    rw [hkeys]; exact hnodup
  have hlen : (sortByCountDesc (objValues
      (tallyVotes task.submissions (initVoteCounts task.options)))).length
      = task.options.length := by
    rw [(sortByCountDesc_perm _).length_eq, objValues, List.length_map,
      (sortByKey_perm _).length_eq]
    have h1 : (tallyVotes task.submissions (initVoteCounts task.options)).length
        = (objKeys (tallyVotes task.submissions (initVoteCounts task.options))).length :=
      (List.length_map _ _).symm
    rw [h1, hkeys, List.length_map]
  constructor
  · rw [hres, assignRanks_map_rank, hlen]
  · rw [hres]
    exact assignRanks_pairwise _ _
      (sortByCountDesc_pairwise _ (objValues_pairwise_id_lt hwk hnd))

/-- C5 witness (for the amended theorem): the fixture consensus carries
ranks [1, 2] over its two options. -/
theorem consensus_ranks_positional_witness :
    exSettlement.consensus.results.map RankedResult.rank
      = List.range' 1 exTask0.options.length
    ∧ exSettlement.consensus.results.Pairwise RankedOrder :=
  consensus_ranks_positional exCfg exDb 1 exTask0 exSettlement.consensus
    rfl (by decide) exDb_consensus_eval

/-! ## Lemmas about vote-count totals -/

theorem mem_objSet {p : Nat × VoteAccum} {k : Nat} {v : VoteAccum} {m : VoteMap}
    (hp : p ∈ objSet k v m) : p = (k, v) ∨ p ∈ m := by
  induction m with
  | nil =>
    simp only [objSet, List.mem_singleton] at hp
    exact Or.inl hp
  | cons q rest ih =>
    obtain ⟨k0, v0⟩ := q
    by_cases heq : k0 = k
    · subst heq
      rw [show objSet k0 v ((k0, v0) :: rest) = (k0, v) :: rest from by
        simp [objSet]] at hp
      rcases List.mem_cons.mp hp with h | h
      · exact Or.inl h
      · exact Or.inr (List.mem_cons_of_mem _ h)
    · rw [show objSet k v ((k0, v0) :: rest) = (k0, v0) :: objSet k v rest from by
        simp [objSet, heq]] at hp
      rcases List.mem_cons.mp hp with h | h
      · subst h; exact Or.inr (List.mem_cons_self _ _)
      · rcases ih h with h' | h'
        · exact Or.inl h'
        · exact Or.inr (List.mem_cons_of_mem _ h')

theorem objSet_countSum_succ {k : Nat} {m : VoteMap} {a : VoteAccum} (v : VoteAccum)
    (h : objGet k m = some a) (hv : v.count = a.count + 1) :
    countSum (objSet k v m) = countSum m + 1 := by
  induction m with
  | nil => exact Option.noConfusion h
  | cons p rest ih =>
    obtain ⟨k0, v0⟩ := p
    by_cases heq : k0 = k
    · subst heq
      rw [objGet, if_pos rfl] at h
      simp only [Option.some.injEq] at h
      subst h
      rw [show objSet k0 v ((k0, v0) :: rest) = (k0, v) :: rest from by simp [objSet]]
      simp only [countSum, List.map_cons, List.sum_cons, hv]
      omega
    · rw [objGet, if_neg heq] at h
      rw [show objSet k v ((k0, v0) :: rest) = (k0, v0) :: objSet k v rest from by
        simp [objSet, heq]]
      simp only [countSum, List.map_cons, List.sum_cons]
      have := ih h
      simp only [countSum] at this
      omega

theorem tallyVotes_countSum (subs : List Submission) (m : VoteMap)
    (hkeys : ∀ s ∈ subs, s.option_id ∈ objKeys m) :
    countSum (tallyVotes subs m) = countSum m + subs.length := by
  induction subs generalizing m with
  | nil => simp [tallyVotes]
  | cons s rest ih =>
    rw [tallyVotes, List.foldl_cons]
    have hs : s.option_id ∈ objKeys m := hkeys s (List.mem_cons_self _ _)
    cases hg : objGet s.option_id m with
    | none =>
      exfalso
      have := (objGet_isSome_iff s.option_id m).mpr hs
      rw [hg] at this
      simp at this
    | some a =>
      have h1 := ih (objSet s.option_id
          ⟨a.optionId, a.count + 1, a.voters ++ [s.worker_id]⟩ m)
        (fun s' hs' => by
          rw [objKeys_objSet_of_get_some _ hg]
          exact hkeys s' (List.mem_cons_of_mem _ hs'))
      calc countSum (tallyVotes rest (objSet s.option_id
              ⟨a.optionId, a.count + 1, a.voters ++ [s.worker_id]⟩ m))
          = countSum (objSet s.option_id
              ⟨a.optionId, a.count + 1, a.voters ++ [s.worker_id]⟩ m)
            + rest.length := h1
        _ = countSum m + 1 + rest.length := by rw [objSet_countSum_succ _ hg rfl]
        _ = countSum m + (s :: rest).length := by simp; omega

theorem initVoteCounts_countSum (options : List TaskOption) :
    countSum (initVoteCounts options) = 0 := by
  have haux : ∀ (l : List TaskOption) (m : VoteMap), (∀ p ∈ m, p.2.count = 0) →
      ∀ p ∈ l.foldl (fun m o => objSet o.id ⟨o.id, 0, []⟩ m) m, p.2.count = 0 := by
    intro l
    induction l with
    | nil => intro m hm; exact hm
    | cons o rest ih =>
      intro m hm
      refine ih _ ?_
      intro p hp
      rcases mem_objSet hp with h | h
      · subst h; rfl
      · exact hm p h
  have hall : ∀ p ∈ initVoteCounts options, p.2.count = 0 :=
    haux options [] (fun p hp => absurd hp (List.not_mem_nil p))
  simp only [countSum]
  refine List.sum_eq_zero ?_
  intro x hx
  obtain ⟨p, hp, rfl⟩ := List.mem_map.mp hx
  exact hall p hp

theorem sum_map_rat_div (l : List VoteAccum) (T : ℚ) :
    ((l.map (fun a => (a.count : ℚ) / T * 100)).sum)
      = ((l.map (fun a => (a.count : ℚ))).sum) / T * 100 := by
  induction l with
  | nil => simp
  | cons a rest ih =>
    simp only [List.map_cons, List.sum_cons, ih]
    ring

theorem sum_map_count_cast (l : List VoteAccum) :
    (l.map (fun a => (a.count : ℚ))).sum = (((l.map VoteAccum.count).sum : ℕ) : ℚ) := by
  induction l with
  | nil => simp
  | cons a rest ih => simp [ih]

theorem assignRanks_map_percentage (T s : Nat) (l : List VoteAccum) :
    (assignRanks T s l).map RankedResult.percentage
      = l.map (fun a => (a.count : ℚ) / (T : ℚ) * 100) := by
  induction l generalizing s with
  | nil => rfl
  | cons a rest ih => simp [assignRanks, ih]

/-! ## C7: vote counts sum to the submission total, percentages to 100 -/

/-- C7: for every existing task with distinct option ids whose submissions
all vote for one of the task's options, the vote counts of a successful
`calculateConsensus` sum to the total number of submissions, each option's
percentage is `votes / totalSubmissions * 100`, and the percentages sum to
exactly 100 (the arithmetic is exact over `ℚ`; the JavaScript floats only
approximate it). -/
theorem consensus_counts_and_percentages (cfg : EnvConfig) (db : Db) (taskId : Nat)
    (task : Task) (c : ConsensusResult)
    (hfind : findTask db taskId = some task)
    (hnodup : (task.options.map TaskOption.id).Nodup)
    (hvotes : ∀ s ∈ task.submissions, s.option_id ∈ task.options.map TaskOption.id)
    (hok : calculateConsensus cfg db taskId = .ok c) :
    (c.results.map RankedResult.count).sum = c.totalSubmissions
    ∧ (∀ r ∈ c.results, r.percentage = (r.count : ℚ) / (c.totalSubmissions : ℚ) * 100)
    ∧ (c.results.map RankedResult.percentage).sum = 100 := by
  obtain ⟨-, htot, hres, -, hge⟩ :=
    calculateConsensus_ok_spec cfg db taskId task c hfind hok
  have hinitkeys : objKeys (initVoteCounts task.options) = task.options.map TaskOption.id :=
    objKeys_initVoteCounts _ hnodup
  have hcount : ((sortByCountDesc (objValues
      (tallyVotes task.submissions (initVoteCounts task.options)))).map
        VoteAccum.count).sum = task.submissions.length := by
    calc ((sortByCountDesc (objValues
          (tallyVotes task.submissions (initVoteCounts task.options)))).map
            VoteAccum.count).sum
        = ((objValues (tallyVotes task.submissions
            (initVoteCounts task.options))).map VoteAccum.count).sum :=
          ((sortByCountDesc_perm _).map VoteAccum.count).sum_eq
      _ = ((sortByKey (tallyVotes task.submissions (initVoteCounts task.options))).map
            (fun p => p.2.count)).sum := by
          rw [objValues, List.map_map]; rfl
      _ = countSum (tallyVotes task.submissions (initVoteCounts task.options)) :=
          ((sortByKey_perm _).map (fun p => p.2.count)).sum_eq
      _ = countSum (initVoteCounts task.options) + task.submissions.length :=
          tallyVotes_countSum _ _ (fun s hs => by rw [hinitkeys]; exact hvotes s hs)
      _ = task.submissions.length := by rw [initVoteCounts_countSum]; omega
  have hpos : 0 < task.submissions.length := by
    rcases Nat.eq_zero_or_pos task.submissions.length with h0 | h
    · exfalso
      rw [h0] at hge
      simp only [Nat.cast_zero, zero_div, MINIMUM_SUBMISSIONS_THRESHOLD] at hge
      norm_num at hge
    · exact h
  refine ⟨?_, ?_, ?_⟩
  · rw [hres, htot, assignRanks_map_count, hcount]
  · intro r hr
    rw [hres] at hr
    obtain ⟨a, ha, -, hcnt, -, hpct⟩ := mem_assignRanks hr
    rw [hpct, hcnt, htot]
  · rw [hres, assignRanks_map_percentage, sum_map_rat_div, sum_map_count_cast,
      hcount]
    have hne : ((task.submissions.length : ℕ) : ℚ) ≠ 0 := by
      exact_mod_cast Nat.pos_iff_ne_zero.mp hpos
    rw [div_self hne]
    norm_num

/-- C7 witness: the fixture consensus (2 submissions over 2 options) has
counts summing to 2 and percentages 50 + 50 = 100. -/
theorem consensus_counts_and_percentages_witness :
    (exSettlement.consensus.results.map RankedResult.count).sum
        = exSettlement.consensus.totalSubmissions
    ∧ (∀ r ∈ exSettlement.consensus.results,
        r.percentage = (r.count : ℚ) / (exSettlement.consensus.totalSubmissions : ℚ) * 100)
    ∧ (exSettlement.consensus.results.map RankedResult.percentage).sum = 100 :=
  consensus_counts_and_percentages exCfg exDb 1 exTask0 exSettlement.consensus
    rfl (by decide) (by decide) exDb_consensus_eval

/-! ## Lemmas about the reward loop -/

theorem assignRanks_length (T s : Nat) (l : List VoteAccum) :
    (assignRanks T s l).length = l.length := by
  induction l generalizing s with
  | nil => rfl
  | cons a rest ih => simp [assignRanks, ih]

theorem ranksFrom_of_map_range' {l : List RankedResult} {k : Nat}
    (h : l.map RankedResult.rank = List.range' k l.length) : RanksFrom k l := by
  induction l generalizing k with
  | nil => trivial
  | cons r rest ih =>
    simp only [List.map_cons, List.length_cons, List.range'_succ,
      List.cons.injEq] at h
    exact ⟨h.1, ih h.2⟩

theorem ranksFrom_take {l : List RankedResult} {k : Nat} (h : RanksFrom k l) (n : Nat) :
    RanksFrom k (l.take n) := by
  induction l generalizing k n with
  | nil => cases n <;> exact trivial
  | cons r rest ih =>
    cases n with
    | zero => exact trivial
    | succ n' =>
      rw [List.take_succ_cons]
      exact ⟨h.1, ih h.2 n'⟩

theorem ranksFrom_mem_bounds {l : List RankedResult} {k : Nat} {r : RankedResult}
    (h : RanksFrom k l) (hr : r ∈ l) :
    k ≤ r.rank ∧ r.rank < k + l.length := by
  induction l generalizing k with
  | nil => cases hr
  | cons x rest ih =>
    rcases List.mem_cons.mp hr with h' | h'
    · subst h'
      have h1 := h.1
      simp only [List.length_cons]
      omega
    · have hb := ih h.2 h'
      simp only [List.length_cons]
      omega

theorem ranksFrom_mem_take {l : List RankedResult} {k n : Nat} {r : RankedResult}
    (h : RanksFrom k l) (hr : r ∈ l) (hlt : r.rank < k + n) : r ∈ l.take n := by
  induction l generalizing k n with
  | nil => cases hr
  | cons x rest ih =>
    cases n with
    | zero =>
      exfalso
      have := (ranksFrom_mem_bounds h hr).1
      omega
    | succ n' =>
      rw [List.take_succ_cons]
      rcases List.mem_cons.mp hr with h' | h'
      · subst h'; exact List.mem_cons_self _ _
      · refine List.mem_cons_of_mem _ (ih h.2 h' ?_)
        omega

theorem rewardLoop_mem_iff (cfg : EnvConfig) (st : ServiceType) {k : Nat}
    {l : List RankedResult} (hr : RanksFrom k l) (w : WorkerReward) :
    w ∈ rewardLoop cfg st k l
      ↔ ∃ r ∈ l, ∃ v ∈ r.voters,
          w = ⟨v, r.optionId, r.rank, calculateWorkerReward cfg st (r.rank : Int),
               r.percentage⟩ := by
  induction l generalizing k with
  | nil => simp [rewardLoop]
  | cons r0 rest ih =>
    obtain ⟨hrk, hrest⟩ := hr
    rw [rewardLoop, List.mem_append]
    constructor
    · rintro (h | h)
      · obtain ⟨v, hv, rfl⟩ := List.mem_map.mp h
        refine ⟨r0, List.mem_cons_self _ _, v, hv, ?_⟩
        rw [hrk]
      · obtain ⟨r, hrm, v, hv, hw⟩ := (ih hrest).mp h
        exact ⟨r, List.mem_cons_of_mem _ hrm, v, hv, hw⟩
    · rintro ⟨r, hrm, v, hv, rfl⟩
      rcases List.mem_cons.mp hrm with h' | h'
      · subst h'
        left
        refine List.mem_map.mpr ⟨v, hv, ?_⟩
        rw [hrk]
      · right
        exact (ih hrest).mpr ⟨r, h', v, hv, rfl⟩

/-- The option ids of a successful consensus's ranked results are distinct. -/
theorem consensus_results_optionId_nodup (cfg : EnvConfig) (db : Db) (taskId : Nat)
    (task : Task) (c : ConsensusResult)
    (hfind : findTask db taskId = some task)
    (hnodup : (task.options.map TaskOption.id).Nodup)
    (hok : calculateConsensus cfg db taskId = .ok c) :
    (c.results.map RankedResult.optionId).Nodup := by
  obtain ⟨-, -, hres, -, -⟩ := calculateConsensus_ok_spec cfg db taskId task c hfind hok
  rw [hres, assignRanks_map_optionId]
  rw [((sortByCountDesc_perm _).map VoteAccum.optionId).nodup_iff]
  rw [objValues, List.map_map]
  have hwk : WellKeyed (tallyVotes task.submissions (initVoteCounts task.options)) :=
    wellKeyed_tallyVotes _ (wellKeyed_initVoteCounts _)
  have hcongr : (sortByKey (tallyVotes task.submissions (initVoteCounts task.options))).map
        (VoteAccum.optionId ∘ Prod.snd)
      = (sortByKey (tallyVotes task.submissions (initVoteCounts task.options))).map
        Prod.fst :=
    List.map_congr_left (fun p hp => hwk p ((sortByKey_perm _).mem_iff.mp hp))
  rw [hcongr, ((sortByKey_perm _).map Prod.fst).nodup_iff]
  rw [show (tallyVotes task.submissions (initVoteCounts task.options)).map Prod.fst
      = objKeys (tallyVotes task.submissions (initVoteCounts task.options)) from rfl]
  rw [(objKeys_tallyVotes _ _).trans (objKeys_initVoteCounts _ hnodup)]
  exact hnodup

/-! ## C4: rank-tiered rewards for the top three options -/

/-- C4: the reward list of a successful consensus rewards exactly the voters
of the rank-1, rank-2 and rank-3 options — every voter of the same option
receives the same per-voter amount `calculateWorkerReward(category, rank)`
(not a split pool) — and `calculateWorkerReward` pays the category base
reward at rank 1, `floor(base * second-place fraction)` at rank 2,
`floor(base * third-place fraction)` at rank 3, and `0` at every rank
greater than 3 or less than 1. -/
theorem rewards_exactly_top3 (cfg : EnvConfig) (db : Db) (taskId : Nat)
    (task : Task) (c : ConsensusResult)
    (hfind : findTask db taskId = some task)
    (hnodup : (task.options.map TaskOption.id).Nodup)
    (hok : calculateConsensus cfg db taskId = .ok c) :
    (∀ w ∈ c.workerRewards, ∃ r ∈ c.results, r.rank ≤ 3
        ∧ w.optionId = r.optionId ∧ w.workerId ∈ r.voters ∧ w.rank = r.rank
        ∧ w.amount = calculateWorkerReward cfg task.serviceType (r.rank : Int))
    ∧ (∀ r ∈ c.results, r.rank ≤ 3 → ∀ v ∈ r.voters,
        (⟨v, r.optionId, r.rank, calculateWorkerReward cfg task.serviceType (r.rank : Int),
          r.percentage⟩ : WorkerReward) ∈ c.workerRewards)
    ∧ (∀ w1 ∈ c.workerRewards, ∀ w2 ∈ c.workerRewards,
        w1.optionId = w2.optionId → w1.amount = w2.amount)
    ∧ (∀ st : ServiceType,
        calculateWorkerReward cfg st 1
          = ((if st = .VIDEOS then cfg.videoMajorityReward
              else cfg.imageThumbnailMajorityReward : Nat) : Int)
        ∧ calculateWorkerReward cfg st 2
          = ⌊((if st = .VIDEOS then cfg.videoMajorityReward
               else cfg.imageThumbnailMajorityReward : Nat) : ℚ) * cfg.secondPlaceMultiplier⌋
        ∧ calculateWorkerReward cfg st 3
          = ⌊((if st = .VIDEOS then cfg.videoMajorityReward
               else cfg.imageThumbnailMajorityReward : Nat) : ℚ) * cfg.thirdPlaceMultiplier⌋)
    ∧ (∀ (st : ServiceType) (rank : Int), 3 < rank ∨ rank < 1 →
        calculateWorkerReward cfg st rank = 0) := by
  obtain ⟨-, -, hres, hrew, -⟩ := calculateConsensus_ok_spec cfg db taskId task c hfind hok
  have hrank : c.results.map RankedResult.rank = List.range' 1 c.results.length := by
    rw [hres, assignRanks_map_rank]
    congr 1
    exact (assignRanks_length _ _ _).symm
  have hRF : RanksFrom 1 c.results := ranksFrom_of_map_range' hrank
  have hRFtake : RanksFrom 1 (c.results.take 3) := ranksFrom_take hRF 3
  have hmemiff : ∀ w : WorkerReward, w ∈ c.workerRewards
      ↔ ∃ r ∈ c.results.take 3, ∃ v ∈ r.voters,
          w = ⟨v, r.optionId, r.rank,
               calculateWorkerReward cfg task.serviceType (r.rank : Int),
               r.percentage⟩ := by
    intro w
    rw [hrew, calculateWorkerRewards]
    exact rewardLoop_mem_iff cfg task.serviceType hRFtake w
  have hids := consensus_results_optionId_nodup cfg db taskId task c hfind hnodup hok
  refine ⟨?_, ?_, ?_, ?_, ?_⟩
  · intro w hw
    obtain ⟨r, hrm, v, hv, rfl⟩ := (hmemiff w).mp hw
    have hb := ranksFrom_mem_bounds hRFtake hrm
    have hlen3 : (c.results.take 3).length ≤ 3 := by
      rw [List.length_take]
      exact min_le_left _ _
    exact ⟨r, List.mem_of_mem_take hrm, by omega, rfl, hv, rfl, rfl⟩
  · intro r hrm hr3 v hv
    refine (hmemiff _).mpr ⟨r, ranksFrom_mem_take hRF hrm (by omega), v, hv, rfl⟩
  · intro w1 hw1 w2 hw2 heq
    obtain ⟨r1, hr1, v1, hv1, rfl⟩ := (hmemiff w1).mp hw1
    obtain ⟨r2, hr2, v2, hv2, rfl⟩ := (hmemiff w2).mp hw2
    have hr12 : r1 = r2 :=
      List.inj_on_of_nodup_map hids (List.mem_of_mem_take hr1)
        (List.mem_of_mem_take hr2) (by simpa using heq)
    rw [hr12]
  · intro st
    exact ⟨rfl, rfl, rfl⟩
  · intro st rank h
    simp only [calculateWorkerReward]
    split_ifs <;> first | rfl | (exfalso; omega)

/-- C4 witness: in the fixture consensus, the rank-1 voter earns the video
base reward 100, the rank-2 voter earns `floor(100 * 0.7) = 70`, and
`calculateWorkerReward` vanishes outside ranks 1-3. -/
theorem rewards_exactly_top3_witness :
    (∀ w ∈ exSettlement.consensus.workerRewards, ∃ r ∈ exSettlement.consensus.results,
        r.rank ≤ 3 ∧ w.optionId = r.optionId ∧ w.workerId ∈ r.voters ∧ w.rank = r.rank
        ∧ w.amount = calculateWorkerReward exCfg exTask0.serviceType (r.rank : Int))
    ∧ (∀ r ∈ exSettlement.consensus.results, r.rank ≤ 3 → ∀ v ∈ r.voters,
        (⟨v, r.optionId, r.rank,
          calculateWorkerReward exCfg exTask0.serviceType (r.rank : Int),
          r.percentage⟩ : WorkerReward) ∈ exSettlement.consensus.workerRewards)
    ∧ (∀ w1 ∈ exSettlement.consensus.workerRewards,
        ∀ w2 ∈ exSettlement.consensus.workerRewards,
        w1.optionId = w2.optionId → w1.amount = w2.amount)
    ∧ (∀ st : ServiceType,
        calculateWorkerReward exCfg st 1
          = ((if st = .VIDEOS then exCfg.videoMajorityReward
              else exCfg.imageThumbnailMajorityReward : Nat) : Int)
        ∧ calculateWorkerReward exCfg st 2
          = ⌊((if st = .VIDEOS then exCfg.videoMajorityReward
               else exCfg.imageThumbnailMajorityReward : Nat) : ℚ)
              * exCfg.secondPlaceMultiplier⌋
        ∧ calculateWorkerReward exCfg st 3
          = ⌊((if st = .VIDEOS then exCfg.videoMajorityReward
               else exCfg.imageThumbnailMajorityReward : Nat) : ℚ)
              * exCfg.thirdPlaceMultiplier⌋)
    ∧ (∀ (st : ServiceType) (rank : Int), 3 < rank ∨ rank < 1 →
        calculateWorkerReward exCfg st rank = 0) :=
  rewards_exactly_top3 exCfg exDb 1 exTask0 exSettlement.consensus
    rfl (by decide) exDb_consensus_eval

end Previwer
